import Mathlib

/-!
Verification of the image-upload lifecycle of the `allin_backend` repository.

The development shallowly embeds the upload/rollback orchestration of the
Express routes (`routes/projects.js`, `routes/courses.js`, `routes/team.js`,
`routes/services.js`) and the storage client
(`services/supabaseService.js`).  Each route handler is translated into a
pure Lean function from an abstract request environment to a `Res`: the HTTP
status it responds with together with the ordered trace of externally visible
effects (store uploads, store deletions, database reads and writes) that the
handler performs address by address, in program order.  Asynchronous
fire-and-forget deletions appear in the trace at the point where the source
launches them.  The upload oracle `outs : List (Option String)` scripts the
outcome of each successive `uploadFile` call in a request (`some url` = the
call returns `url`, `none` = the call throws after exhausting its retries);
the booleans `saveOk` / `updOk` script whether the database write succeeds or
throws.  JSON bodies are assumed well-formed (`JSON.parse` succeeding) since
no claim concerns malformed JSON.
-/

/-! ### A model of the JavaScript string operations used by the code

`jsSplit sep s` models `s.split(sep)` for a non-empty separator `sep`
(leftmost non-overlapping occurrences, JS semantics), and
`jsIncludes s sub` models `s.includes(sub)`.  Both are structurally
recursive so that concrete instances reduce inside the kernel. -/

/-- Strip `p` from the front of `s`; `some rest` when `p` is a prefix of `s`. -/
def stripPre : List Char → List Char → Option (List Char)
  | [], rest => some rest
  | _ :: _, [] => none
  | p :: ps, c :: cs => if p = c then stripPre ps cs else none

/-- Fuel-indexed worker for `jsSplit`; the fuel is the length of the input,
which suffices because every recursive call consumes at least one character
of the input (the separator is non-empty in all uses). -/
def splitAux (sep : List Char) : Nat → List Char → List Char → List (List Char)
  | _, cur, [] => [cur.reverse]
  | 0, cur, s => [cur.reverse ++ s]
  | fuel + 1, cur, c :: cs =>
    match stripPre sep (c :: cs) with
    | some rest => cur.reverse :: splitAux sep fuel [] rest
    | none => splitAux sep fuel (c :: cur) cs

/-- Model of JavaScript `s.split(sep)` for non-empty `sep`. -/
def jsSplit (sep s : String) : List String :=
  (splitAux sep.data s.data.length [] s.data).map fun cs => ⟨cs⟩

/-- Does `sub` occur as a prefix of `s`? (Boolean version of `stripPre`.) -/
def hasPre : List Char → List Char → Bool
  | [], _ => true
  | _ :: _, [] => false
  | p :: ps, c :: cs => p = c && hasPre ps cs

/-- Does `sub` occur as a contiguous sublist of `s`? -/
def hasSubL (sub : List Char) : List Char → Bool
  | [] => hasPre sub []
  | c :: cs => hasPre sub (c :: cs) || hasSubL sub cs

/-- Model of JavaScript `s.includes(sub)`. -/
def jsIncludes (s sub : String) : Bool := hasSubL sub.data s.data

/-! ### Events and results

`Ev` is the vocabulary of externally visible effects a route handler can
perform, recorded in program order:

* `upload url`    — a `supabaseService.uploadFile` call that succeeded,
                    returning `url`;
* `uploadFail`    — an `uploadFile` call that threw after its retries;
* `delFiles urls` — a `supabaseService.deleteFiles(urls)` batch-delete call;
* `delFile url`   — a single-file store delete for the object behind `url`
                    (`supabaseService.deleteFile(url)`, or the `services.js`
                    helper `deleteImageFromSupabase` when it actually issues
                    its `remove` call);
* `dbFind found`  — the `findById` existence check on the addressed entity;
* `dbCreate refs ok` — a document insert (`save`/`create`); `refs` lists the
                    media URLs the inserted document references, `ok` whether
                    the insert succeeded;
* `dbUpdate refs ok` — a `findByIdAndUpdate` on the loaded entity; `refs`
                    lists the media URLs the document references after the
                    update, `ok` whether the call succeeded;
* `dbSoftDelete matched` — the projects soft delete: a `findByIdAndUpdate`
                    setting only `status: 'deleted'` (media references
                    untouched), `matched` whether a document matched the id;
* `dbDelete`      — a hard document delete. -/
inductive Ev where
  | upload (url : String)
  | uploadFail
  | delFiles (urls : List String)
  | delFile (url : String)
  | dbFind (found : Bool)
  | dbCreate (refs : List String) (ok : Bool)
  | dbUpdate (refs : List String) (ok : Bool)
  | dbSoftDelete (matched : Bool)
  | dbDelete
deriving DecidableEq

/-- The observable result of one request: response status and effect trace. -/
structure Res where
  status : Nat
  trace : List Ev
deriving DecidableEq

/-- An uploaded multipart file; only its presence (and name) matter to the
orchestration logic, the bytes are consumed by the upload oracle. -/
structure UpFile where
  name : String
deriving DecidableEq

/-- Pop the next scripted upload outcome; an exhausted script acts as a
failing upload. -/
def takeOut : List (Option String) → Option String × List (Option String)
  | [] => (none, [])
  | o :: rest => (o, rest)

/-- `rollbackUploads` from `routes/projects.js` (lines 27–34): when the
tracked list is non-empty it issues one `deleteFiles` batch call over it
(whose own errors it swallows); when empty it does nothing. -/
def rollbackUploads (uploadedUrls : List String) : List Ev :=
  if uploadedUrls.isEmpty then [] else [Ev.delFiles uploadedUrls]

/-! ### The storage client: `services/supabaseService.js` -/

/-- One observable step of `uploadFile`: an attempt (with its 1-based number
and whether it succeeded) or a backoff wait of `ms` milliseconds. -/
inductive UpEv where
  | att (n : Nat) (ok : Bool)
  | wait (ms : Nat)
deriving DecidableEq

/-- Worker for `SupabaseService.uploadFile` (supabaseService.js lines 58–95).
`res a` scripts attempt `a` (1-based): `Except.ok url` means the store write
succeeded and `getPublicUrl` returned `url`; `Except.error e` means the
attempt threw `e`.  On failure of attempt `a < retries` the code waits
`Math.pow(2, attempt) * 1000` ms and retries; failure of the last attempt
rethrows the last error.  The fuel equals the number of remaining attempts;
the fuel-0 fallthrough mirrors the (unreachable for `retries ≥ 1`) case of
the JS `for` loop ending without a `return`. -/
def uploadFileGo (res : Nat → Except String String) (retries : Nat) :
    Nat → Nat → List UpEv × Except String String
  | _, 0 => ([], Except.error "")
  | attempt, fuel + 1 =>
    match res attempt with
    | Except.ok url => ([UpEv.att attempt true], Except.ok url)
    | Except.error e =>
      if attempt = retries then ([UpEv.att attempt false], Except.error e)
      else
        let r := uploadFileGo res retries (attempt + 1) fuel
        (UpEv.att attempt false :: UpEv.wait (2 ^ attempt * 1000) :: r.1, r.2)

/-- `SupabaseService.uploadFile` with its default `retries = 3`:
up to 3 attempts, exponential backoff `2^attempt` seconds between
consecutive attempts, last error rethrown. -/
def uploadFile (res : Nat → Except String String) : List UpEv × Except String String :=
  uploadFileGo res 3 1 3

/-- Worker for the duplicated `uploadFile` embedded at the bottom of
`routes/services.js` (lines 583–614): identical control flow, but the wait
between attempts is the linear `1000 * attempt` ms. -/
def uploadFileCopyGo (res : Nat → Except String String) (retries : Nat) :
    Nat → Nat → List UpEv × Except String String
  | _, 0 => ([], Except.error "")
  | attempt, fuel + 1 =>
    match res attempt with
    | Except.ok url => ([UpEv.att attempt true], Except.ok url)
    | Except.error e =>
      if attempt = retries then ([UpEv.att attempt false], Except.error e)
      else
        let r := uploadFileCopyGo res retries (attempt + 1) fuel
        (UpEv.att attempt false :: UpEv.wait (1000 * attempt) :: r.1, r.2)

/-- The embedded `routes/services.js` copy of `uploadFile`, default
`retries = 3`. -/
def uploadFileCopy (res : Nat → Except String String) : List UpEv × Except String String :=
  uploadFileCopyGo res 3 1 3

/-- Number of upload attempts recorded in an `uploadFile` trace. -/
def attemptsOf (tr : List UpEv) : Nat :=
  tr.countP fun e => match e with | UpEv.att _ _ => true | _ => false

/-- The backoff waits (in ms) recorded in an `uploadFile` trace, in order. -/
def waitsOf (tr : List UpEv) : List Nat :=
  tr.filterMap fun e => match e with | UpEv.wait ms => some ms | _ => none

/-- An image byte buffer, abstracted to what `_compressImage` inspects:
its byte length, its pixel dimensions, whether `sharp` can decode it, and
(for buffers produced by the model's re-encode step) the JPEG quality it was
encoded at (`none` for client-supplied bytes). -/
structure Buffer where
  size : Nat
  width : Nat
  height : Nat
  valid : Bool
  quality : Option Nat
deriving DecidableEq

/-- The `sharp(imageBuffer).resize({ width: 1200, withoutEnlargement: true })
.jpeg({ quality: 70, mozjpeg: true }).toBuffer()` pipeline of
`_compressImage`: it throws on an undecodable buffer; otherwise, when the
width exceeds 1200 it scales the image to width 1200 preserving aspect ratio
(`withoutEnlargement` leaves smaller widths untouched — the height is NOT
constrained), and re-encodes as JPEG quality 70.  The byte length of the
re-encoded output is abstracted by the external parameter `encSize`. -/
def sharpResizeJpeg (encSize : Nat → Nat → Nat) (b : Buffer) : Except String Buffer :=
  if b.valid = false then Except.error "Input buffer contains unsupported image format"
  else
    let w := if 1200 < b.width then 1200 else b.width
    let h := if 1200 < b.width then b.height * 1200 / b.width else b.height
    Except.ok { size := encSize w h, width := w, height := h, valid := true, quality := some 70 }

/-- `SupabaseService._compressImage` (supabaseService.js lines 29–45): buffers
under 100 KiB (`length / 1024 < 100`) are returned unmodified; otherwise the
`sharp` pipeline runs, and any failure falls back to the original buffer. -/
def compressImage (encSize : Nat → Nat → Nat) (b : Buffer) : Buffer :=
  if b.size / 1024 < 100 then b
  else
    match sharpResizeJpeg encSize b with
    | Except.ok out => out
    | Except.error _ => b

/-- `SupabaseService.deleteFile` (supabaseService.js lines 100–113), modelled
as the list of store `remove` calls it issues (each call is a path list).
A falsy URL is a no-op; otherwise the path is
`fileUrl.split(bucket + "/").pop()` — the LAST split component, which for a
URL not containing the bucket prefix is the entire URL — and a `remove`
call is always issued with it.  All store errors are caught and logged, so
the function never raises. -/
def deleteFile (bucket fileUrl : String) : List (List String) :=
  if fileUrl = "" then []
  else [[((jsSplit (bucket ++ "/") fileUrl).getLastD "")]]

/-- `SupabaseService.deleteFiles` (supabaseService.js lines 119–142), as the
list of store `remove` calls it issues.  Each URL is split on
`bucket + "/"`; URLs with no occurrence map to `null` and are filtered out
(silently skipped), the rest contribute `parts[1]`.  A single batch `remove`
is issued when any path survives.  All store errors are caught, so the
function never raises. -/
def deleteFiles (bucket : String) (urls : List String) : List (List String) :=
  if urls.isEmpty then []
  else
    let paths := urls.filterMap fun url =>
      let parts := jsSplit (bucket ++ "/") url
      if 1 < parts.length then some (parts.getD 1 "") else none
    if paths.isEmpty then [] else [paths]

/-- The `deleteImageFromSupabase` helper local to `routes/services.js`
(lines 83–129), as route-trace events: it skips (no store call) when the URL
is falsy, does not contain `'supabase'`, or yields fewer than two parts when
split on `'/media/'`; otherwise it issues one `remove([urlParts[1]])` call,
recorded here as `Ev.delFile imageUrl` (the event names the public URL whose
object the extracted path addresses).  Errors are caught, never raised. -/
def deleteImageFromSupabase (imageUrl : String) : List Ev :=
  if imageUrl = "" then []
  else if jsIncludes imageUrl "supabase" = false then []
  else if (jsSplit "/media/" imageUrl).length < 2 then []
  else [Ev.delFile imageUrl]

/-! ### Route models -/

/-- Result of the per-file gallery upload loop shared by
POST and PUT `/api/projects` (part_000 lines 147–166 and 277–294). -/
structure GalRes where
  trace : List Ev
  outs : List (Option String)
  urls : List String
  imgs : List String
  ok : Bool
deriving DecidableEq

/-- The gallery upload loop: for each file, call `uploadFile`; on success
push the URL onto both the images list and the tracked `uploadedUrls`; on
failure run `rollbackUploads(uploadedUrls)` (the inner `catch`) and rethrow,
which aborts the loop with `ok := false`. -/
def galleryUploads : List UpFile → List (Option String) → List String → List String → GalRes
  | [], outs, urls, imgs => ⟨[], outs, urls, imgs, true⟩
  | _f :: fs, outs, urls, imgs =>
    match takeOut outs with
    | (some url, rest) =>
      let r := galleryUploads fs rest (urls ++ [url]) (imgs ++ [url])
      ⟨Ev.upload url :: r.trace, r.outs, r.urls, r.imgs, r.ok⟩
    | (none, rest) => ⟨Ev.uploadFail :: rollbackUploads urls, rest, urls, imgs, false⟩

/-- Request environment for POST `/api/projects` (part_000 lines 92–185).
`hasFieldKeys` is whether the body defines at least one of the nine fields
`price, currency, bedrooms, bathrooms, area, areaUnit, type, status, badge`
iterated by the `fields.forEach` at lines 116–130. -/
structure PostProjectsReq where
  hasFieldKeys : Bool
  mainImageFile : Option UpFile
  galleryFiles : List UpFile
deriving DecidableEq

/-- Continuation of `projectsCreate` after the optional main-image upload:
the gallery loop, the `save`, and the outer `catch` (which reruns
`rollbackUploads(uploadedUrls)` — a second time on gallery-failure paths). -/
def projectsCreateRest (req : PostProjectsReq) (mainUrl : Option String)
    (outs : List (Option String)) (saveOk : Bool) : Res :=
  let pre : List Ev := match mainUrl with | some mu => [Ev.upload mu] | none => []
  let urls0 : List String := match mainUrl with | some mu => [mu] | none => []
  let g := galleryUploads req.galleryFiles outs urls0 []
  if g.ok then
    let refs := (match mainUrl with | some mu => [mu] | none => []) ++ g.imgs
    if saveOk then ⟨201, pre ++ g.trace ++ [Ev.dbCreate refs true]⟩
    else ⟨500, pre ++ g.trace ++ [Ev.dbCreate refs false] ++ rollbackUploads g.urls⟩
  else ⟨500, pre ++ g.trace ++ rollbackUploads g.urls⟩

/-- POST `/api/projects`.  When the body defines any of the nine text fields,
the `fields.forEach` assigns to the undeclared identifier `updates`
(lines 122/124/127; only `projectData` is declared in this handler), which
raises `ReferenceError: updates is not defined` before any upload; the outer
`catch` then runs `rollbackUploads([])` (no store call) and responds 500.
Otherwise: optional main-image upload (no inner try — a failure propagates
straight to the outer catch while `uploadedUrls` is still empty), then the
gallery loop, then `save`. -/
def projectsCreate (req : PostProjectsReq) (outs : List (Option String))
    (saveOk : Bool) : Res :=
  if req.hasFieldKeys then ⟨500, []⟩
  else
    match req.mainImageFile with
    | some _ =>
      match takeOut outs with
      | (some mu, outs1) => projectsCreateRest req (some mu) outs1 saveOk
      | (none, _) => ⟨500, [Ev.uploadFail]⟩
    | none => projectsCreateRest req none outs saveOk

/-- Request environment for PUT `/api/projects/:id` (part_000 lines 190–325).
`projFound` scripts the `findById` existence check; `projMainImage` and
`projImages` are the stored document's media fields (`""` models a
falsy/absent main image); `existingImages` is the body's normalized
`existingImages` list (`[]` when absent). -/
structure PutProjectsReq where
  projFound : Bool
  projMainImage : String
  projImages : List String
  mainImageFile : Option UpFile
  galleryFiles : List UpFile
  existingImages : List String
deriving DecidableEq

/-- Continuation of `projectsUpdate` after the optional main-image
replacement upload (`newMain = some nu` when a new main image was uploaded,
in which case `oldMainImage := project.mainImage` was captured):
gallery merge and loop, `findByIdAndUpdate`, then the fire-and-forget
`deleteFiles(imagesToDeleteLater)` cleanup — or, on any throw, the outer
catch's `rollbackUploads(uploadedUrls)`. -/
def projectsUpdateRest (req : PutProjectsReq) (newMain : Option String)
    (outs : List (Option String)) (updOk : Bool) : Res :=
  let pre : List Ev :=
    Ev.dbFind true :: (match newMain with | some nu => [Ev.upload nu] | none => [])
  let urls0 : List String := match newMain with | some nu => [nu] | none => []
  let oldMain : String := match newMain with | some _ => req.projMainImage | none => ""
  let finalImages0 := req.existingImages
  let toDeleteLater0 := req.projImages.filter fun u => !(finalImages0.contains u)
  let g := galleryUploads req.galleryFiles outs urls0 finalImages0
  if g.ok then
    let mainAfter : String := match newMain with | some nu => nu | none => req.projMainImage
    let refs := (if mainAfter = "" then [] else [mainAfter]) ++ g.imgs
    if updOk then
      let later := toDeleteLater0 ++ (if oldMain = "" then [] else [oldMain])
      ⟨200, pre ++ g.trace ++ [Ev.dbUpdate refs true] ++ rollbackUploads later⟩
    else ⟨500, pre ++ g.trace ++ [Ev.dbUpdate refs false] ++ rollbackUploads g.urls⟩
  else ⟨500, pre ++ g.trace ++ rollbackUploads g.urls⟩

/-- PUT `/api/projects/:id`: `findById` (404 when absent) strictly before any
upload; optional main-image replacement upload (its inner catch runs
`rollbackUploads` on the still-empty `uploadedUrls`, so no store call);
gallery merge and loop; `findByIdAndUpdate`; async cleanup of the replaced
main image and the removed gallery entries only after a successful update. -/
def projectsUpdate (req : PutProjectsReq) (outs : List (Option String))
    (updOk : Bool) : Res :=
  if req.projFound then
    match req.mainImageFile with
    | some _ =>
      match takeOut outs with
      | (some nu, outs1) => projectsUpdateRest req (some nu) outs1 updOk
      | (none, _) => ⟨500, [Ev.dbFind true, Ev.uploadFail]⟩
    | none => projectsUpdateRest req none outs updOk
  else ⟨404, [Ev.dbFind false]⟩

/-- Request environment for DELETE `/api/projects/:id`
(part_000 lines 330–372). -/
structure DelProjectsReq where
  permanent : Bool
  projFound : Bool
  projMainImage : String
  projImages : List String
deriving DecidableEq

/-- DELETE `/api/projects/:id`.  `permanent=true`: `findById` (404 when
absent), collect main + gallery URLs, `deleteOne` the document, then the
fire-and-forget `deleteFiles` of the collected URLs.  Otherwise (soft
delete): an unconditional `findByIdAndUpdate(id, { status: 'deleted' })`
with NO existence check, always answering 200. -/
def projectsDelete (req : DelProjectsReq) : Res :=
  if req.permanent then
    if req.projFound then
      let imagesToDelete :=
        (if req.projMainImage = "" then [] else [req.projMainImage]) ++ req.projImages
      ⟨200, [Ev.dbFind true, Ev.dbDelete] ++ rollbackUploads imagesToDelete⟩
    else ⟨404, [Ev.dbFind false]⟩
  else ⟨200, [Ev.dbSoftDelete req.projFound]⟩

/-- Request environment for POST `/api/courses` (part_005 lines 164–211).
`bodyImage` is `req.body.image` (`""` when absent); the body is assumed to
carry no other `image` value when a file is attached. -/
structure PostCoursesReq where
  imageFile : Option UpFile
  bodyImage : String
deriving DecidableEq

/-- POST `/api/courses`: optional image upload (an upload error is rethrown
and caught by the handler's single catch, which performs NO rollback), then
`Course.create`; a create failure likewise triggers no rollback, orphaning
the uploaded image. -/
def coursesCreate (req : PostCoursesReq) (outs : List (Option String))
    (createOk : Bool) : Res :=
  match req.imageFile with
  | some _ =>
    match takeOut outs with
    | (some u, _) =>
      if createOk then ⟨201, [Ev.upload u, Ev.dbCreate [u] true]⟩
      else ⟨500, [Ev.upload u, Ev.dbCreate [u] false]⟩
    | (none, _) => ⟨500, [Ev.uploadFail]⟩
  | none =>
    let img := if req.bodyImage = "" then
      "https://placehold.co/600x400/d4af37/ffffff?text=Course" else req.bodyImage
    if createOk then ⟨201, [Ev.dbCreate [img] true]⟩
    else ⟨500, [Ev.dbCreate [img] false]⟩

/-- Request environment for PUT `/api/courses/:id`
(part_005 lines 215–242). -/
structure PutCoursesReq where
  courseFound : Bool
  courseImage : String
  imageFile : Option UpFile
deriving DecidableEq

/-- PUT `/api/courses/:id`: `findById` (404 when absent); when a file is
attached, the OLD image is deleted first (`deleteFile`, guarded by
`course.image && course.image.includes('supabase')`) — BEFORE the new upload
and BEFORE the database write — then the new image is uploaded and
`findByIdAndUpdate` runs.  No rollback anywhere: an upload or update failure
just answers 500. -/
def coursesPut (req : PutCoursesReq) (outs : List (Option String))
    (updOk : Bool) : Res :=
  if req.courseFound then
    match req.imageFile with
    | some _ =>
      let delOld : List Ev :=
        if req.courseImage ≠ "" ∧ jsIncludes req.courseImage "supabase" = true then
          [Ev.delFile req.courseImage] else []
      match takeOut outs with
      | (some nu, _) =>
        if updOk then ⟨200, [Ev.dbFind true] ++ delOld ++ [Ev.upload nu, Ev.dbUpdate [nu] true]⟩
        else ⟨500, [Ev.dbFind true] ++ delOld ++ [Ev.upload nu, Ev.dbUpdate [nu] false]⟩
      | (none, _) => ⟨500, [Ev.dbFind true] ++ delOld ++ [Ev.uploadFail]⟩
    | none =>
      let refs := if req.courseImage = "" then [] else [req.courseImage]
      if updOk then ⟨200, [Ev.dbFind true, Ev.dbUpdate refs true]⟩
      else ⟨500, [Ev.dbFind true, Ev.dbUpdate refs false]⟩
  else ⟨404, [Ev.dbFind false]⟩

/-- DELETE `/api/courses/:id` (part_005 lines 247–266): `findById` (404 when
absent), delete the stored image when it is a Supabase URL, then
`course.deleteOne()`. -/
def coursesDelete (found : Bool) (image : String) : Res :=
  if found then
    let delImg : List Ev :=
      if image ≠ "" ∧ jsIncludes image "supabase" = true then [Ev.delFile image] else []
    ⟨200, [Ev.dbFind true] ++ delImg ++ [Ev.dbDelete]⟩
  else ⟨404, [Ev.dbFind false]⟩

/-- Request environment for POST `/api/team` (part_006 lines 534–617).
The three validation flags script the translation-name, email and
license-uniqueness checks that all answer 400 before any upload. -/
structure PostTeamReq where
  translationsOk : Bool
  emailGiven : Bool
  licenseConflict : Bool
  bodyImage : String
  imageFile : Option UpFile
deriving DecidableEq

/-- POST `/api/team`: validations (400, no side effects), optional image
upload, `TeamMember.create`; the catch answers 400 and rolls back the
uploaded image (single `deleteFile` via `rollbackUpload`) only when one was
uploaded. -/
def teamCreate (req : PostTeamReq) (outs : List (Option String))
    (createOk : Bool) : Res :=
  if !req.translationsOk then ⟨400, []⟩
  else if !req.emailGiven then ⟨400, []⟩
  else if req.licenseConflict then ⟨400, []⟩
  else
    match req.imageFile with
    | some _ =>
      match takeOut outs with
      | (some u, _) =>
        if createOk then ⟨201, [Ev.upload u, Ev.dbCreate [u] true]⟩
        else ⟨400, [Ev.upload u, Ev.dbCreate [u] false, Ev.delFile u]⟩
      | (none, _) => ⟨400, [Ev.uploadFail]⟩
    | none =>
      let img := if req.bodyImage = "" then
        "https://via.placeholder.com/400x400/d4af37/ffffff?text=Team+Member" else req.bodyImage
      if createOk then ⟨201, [Ev.dbCreate [img] true]⟩
      else ⟨400, [Ev.dbCreate [img] false]⟩

/-- Request environment for PUT `/api/team/:id` (part_006 lines 622–718). -/
structure PutTeamReq where
  memberFound : Bool
  memberImage : String
  licenseConflict : Bool
  imageFile : Option UpFile
  bodyImage : String
deriving DecidableEq

/-- PUT `/api/team/:id`: `findById` (404 when absent), license check (400),
optional new-image upload, `findByIdAndUpdate`, and only AFTER a successful
update the old image is deleted (guarded by
`newImageUrl && oldImageUrl && oldImageUrl.includes('supabase')`).  On an
update failure the catch answers 400 and rolls back only the new upload. -/
def teamPut (req : PutTeamReq) (outs : List (Option String))
    (updOk : Bool) : Res :=
  if req.memberFound then
    if req.licenseConflict then ⟨400, [Ev.dbFind true]⟩
    else
      match req.imageFile with
      | some _ =>
        match takeOut outs with
        | (some nu, _) =>
          if updOk then
            let delOld : List Ev :=
              if nu ≠ "" ∧ req.memberImage ≠ "" ∧ jsIncludes req.memberImage "supabase" = true
              then [Ev.delFile req.memberImage] else []
            ⟨200, [Ev.dbFind true, Ev.upload nu, Ev.dbUpdate [nu] true] ++ delOld⟩
          else ⟨400, [Ev.dbFind true, Ev.upload nu, Ev.dbUpdate [nu] false, Ev.delFile nu]⟩
        | (none, _) => ⟨400, [Ev.dbFind true, Ev.uploadFail]⟩
      | none =>
        let img := if req.bodyImage = "" then req.memberImage else req.bodyImage
        let refs := if img = "" then [] else [img]
        if updOk then ⟨200, [Ev.dbFind true, Ev.dbUpdate refs true]⟩
        else ⟨400, [Ev.dbFind true, Ev.dbUpdate refs false]⟩
  else ⟨404, [Ev.dbFind false]⟩

/-- DELETE `/api/team/:id` (part_006 lines 723–747): `findById` (404 when
absent), delete the profile image when it is a Supabase URL, then
`member.deleteOne()`. -/
def teamDelete (found : Bool) (image : String) : Res :=
  if found then
    let delImg : List Ev :=
      if image ≠ "" ∧ jsIncludes image "supabase" = true then [Ev.delFile image] else []
    ⟨200, [Ev.dbFind true] ++ delImg ++ [Ev.dbDelete]⟩
  else ⟨404, [Ev.dbFind false]⟩

/-- Request environment for POST `/api/services` (services.js lines 280–364).
`requiredOk` is `serviceData.translations && serviceData.order` (the handler
throws `Missing required fields` when it is false). -/
structure PostServicesReq where
  bodyIcon : String
  iconFile : Option UpFile
  requiredOk : Bool
deriving DecidableEq

/-- POST `/api/services`: optional icon upload via `uploadImageToSupabase`
(no retry; a failure propagates to the catch, which, with no uploaded icon,
performs no rollback), the required-fields check, then `save`; on any
failure after an upload the catch rolls the icon back through
`deleteImageFromSupabase`. -/
def servicesCreate (req : PostServicesReq) (outs : List (Option String))
    (saveOk : Bool) : Res :=
  match req.iconFile with
  | some _ =>
    match takeOut outs with
    | (some u, _) =>
      if !req.requiredOk then ⟨500, [Ev.upload u] ++ deleteImageFromSupabase u⟩
      else if saveOk then ⟨201, [Ev.upload u, Ev.dbCreate [u] true]⟩
      else ⟨500, [Ev.upload u, Ev.dbCreate [u] false] ++ deleteImageFromSupabase u⟩
    | (none, _) => ⟨500, [Ev.uploadFail]⟩
  | none =>
    let icon := if req.bodyIcon = "" then "https://via.placeholder.com/64" else req.bodyIcon
    if !req.requiredOk then ⟨500, []⟩
    else if saveOk then ⟨201, [Ev.dbCreate [icon] true]⟩
    else ⟨500, [Ev.dbCreate [icon] false]⟩

/-- Request environment for PUT `/api/services/:id`
(services.js lines 371–489). -/
structure PutServicesReq where
  serviceFound : Bool
  serviceIcon : String
  bodyIcon : String
  iconFile : Option UpFile
deriving DecidableEq

/-- PUT `/api/services/:id`: `findById` (404 when absent); optional new-icon
upload; then — BEFORE `findByIdAndUpdate` — the old icon is deleted through
`deleteImageFromSupabase` whenever `oldIconUrl && finalIcon &&
oldIconUrl !== finalIcon`; then the database update.  On an update failure
the catch answers 500 and rolls back only the newly uploaded icon. -/
def servicesPut (req : PutServicesReq) (outs : List (Option String))
    (updOk : Bool) : Res :=
  if req.serviceFound then
    let oldIcon := req.serviceIcon
    match req.iconFile with
    | some _ =>
      match takeOut outs with
      | (some nu, _) =>
        let finalIcon := nu
        let delOld : List Ev :=
          if oldIcon ≠ "" ∧ finalIcon ≠ "" ∧ oldIcon ≠ finalIcon then
            deleteImageFromSupabase oldIcon else []
        let refs := if finalIcon = "" then [] else [finalIcon]
        if updOk then ⟨200, [Ev.dbFind true, Ev.upload nu] ++ delOld ++ [Ev.dbUpdate refs true]⟩
        else
          ⟨500, [Ev.dbFind true, Ev.upload nu] ++ delOld ++ [Ev.dbUpdate refs false]
            ++ deleteImageFromSupabase nu⟩
      | (none, _) => ⟨500, [Ev.dbFind true, Ev.uploadFail]⟩
    | none =>
      let finalIcon := if req.bodyIcon = "" then oldIcon else req.bodyIcon
      let delOld : List Ev :=
        if oldIcon ≠ "" ∧ finalIcon ≠ "" ∧ oldIcon ≠ finalIcon then
          deleteImageFromSupabase oldIcon else []
      let refs := if finalIcon = "" then [] else [finalIcon]
      if updOk then ⟨200, [Ev.dbFind true] ++ delOld ++ [Ev.dbUpdate refs true]⟩
      else ⟨500, [Ev.dbFind true] ++ delOld ++ [Ev.dbUpdate refs false]⟩
  else ⟨404, [Ev.dbFind false]⟩

/-- DELETE `/api/services/:id` (services.js lines 496–538): `findById`
(404 when absent), delete the icon via `deleteImageFromSupabase` when one is
stored, then `findByIdAndDelete`. -/
def servicesDelete (found : Bool) (icon : String) : Res :=
  if found then
    let delIcon := if icon = "" then [] else deleteImageFromSupabase icon
    ⟨200, [Ev.dbFind true] ++ delIcon ++ [Ev.dbDelete]⟩
  else ⟨404, [Ev.dbFind false]⟩

/-! ### Trace predicates and the store/database world -/

/-- Is the event a database write (`save`/`create`, `findByIdAndUpdate`, or a
document delete)? -/
def isDbWrite : Ev → Bool
  | Ev.dbCreate _ _ => true
  | Ev.dbUpdate _ _ => true
  | Ev.dbSoftDelete _ => true
  | Ev.dbDelete => true
  | _ => false

/-- Is the event a storage deletion call? -/
def isStorageDelete : Ev → Bool
  | Ev.delFile _ => true
  | Ev.delFiles _ => true
  | _ => false

/-- Does the event pass the URL `u` to a storage delete call? -/
def deletesTarget (u : String) : Ev → Bool
  | Ev.delFile v => v == u
  | Ev.delFiles vs => vs.contains u
  | _ => false

/-- How many storage delete calls in the trace receive the URL `u`. -/
def delPassCount (tr : List Ev) (u : String) : Nat :=
  tr.countP (deletesTarget u)

/-- `cleanupAfterCommit old tr`: along the trace, no storage delete call
receives `old` before a successful `findByIdAndUpdate`; once one database
update succeeds the scan stops (post-commit cleanup is allowed).  This is
the shape of the spec's commit-then-cleanup ordering property. -/
def cleanupAfterCommit (old : String) : List Ev → Bool
  | [] => true
  | e :: tr =>
    if deletesTarget old e then false
    else
      match e with
      | Ev.dbUpdate _ true => true
      | _ => cleanupAfterCommit old tr

/-- Abstract joint state of the object store and the entity's database
document: `store` is the set of object public URLs present in the bucket,
`dbRefs` the media URLs the persisted document references, and `upReq` the
URLs uploaded so far during the current request (the spec's transient
window). -/
structure World where
  store : List String
  dbRefs : List String
  upReq : List String
deriving DecidableEq

/-- Interpretation of one trace event on the world.  Uploads insert into the
store (`upsert: true`) and into the request's upload set; deletes remove
from the store; only SUCCESSFUL document writes change `dbRefs`; the soft
delete touches only the status flag. -/
def stepW (w : World) : Ev → World
  | Ev.upload u => { w with store := u :: w.store, upReq := u :: w.upReq }
  | Ev.uploadFail => w
  | Ev.delFile u => { w with store := w.store.filter fun v => !(v == u) }
  | Ev.delFiles us => { w with store := w.store.filter fun v => !(us.contains v) }
  | Ev.dbFind _ => w
  | Ev.dbCreate refs ok => if ok then { w with dbRefs := refs } else w
  | Ev.dbUpdate refs ok => if ok then { w with dbRefs := refs } else w
  | Ev.dbSoftDelete _ => w
  | Ev.dbDelete => { w with dbRefs := [] }

/-- Run a trace on a world. -/
def runW (w : World) (tr : List Ev) : World := tr.foldl stepW w

/-- The spec's referential-integrity invariant at one instant: every URL the
database persists exists in the store, or is excused by the transient window
(it was uploaded during the current request). -/
def okW (w : World) : Bool :=
  w.dbRefs.all fun u => w.store.contains u || w.upReq.contains u

/-- `okW` holds before every event of the trace (final state not checked). -/
def invSteps (w : World) : List Ev → Bool
  | [] => true
  | e :: tr => okW w && invSteps (stepW w e) tr

/-- `okW` holds before every event of the trace and in the final state. -/
def invHolds (w : World) (tr : List Ev) : Bool :=
  invSteps w tr && okW (runW w tr)

/-- Is the event a successful document write (the commit points that install
new `dbRefs`)? -/
def commitEv : Ev → Bool
  | Ev.dbCreate _ true => true
  | Ev.dbUpdate _ true => true
  | _ => false

/-- The values of the scripted upload outcomes that are successes. -/
def someVals (outs : List (Option String)) : List String := outs.filterMap id

/-! ### Structural lemmas about the gallery loop -/

theorem galleryUploads_succ (gUrls : List String) :
    ∀ (fs : List UpFile) (outs : List (Option String)) (urls imgs : List String),
      gUrls.length = fs.length →
      galleryUploads fs (gUrls.map some ++ outs) urls imgs =
        ⟨gUrls.map Ev.upload, outs, urls ++ gUrls, imgs ++ gUrls, true⟩ := by
  induction gUrls with
  | nil =>
    intro fs outs urls imgs h
    cases fs with
    | nil => simp [galleryUploads]
    | cons f fs => simp at h
  | cons g gs ih =>
    intro fs outs urls imgs h
    cases fs with
    | nil => simp at h
    | cons f fs =>
      simp only [List.map_cons, List.cons_append, galleryUploads, takeOut]
      rw [ih fs outs (urls ++ [g]) (imgs ++ [g]) (by simpa using h)]
      simp

theorem galleryUploads_fail (gUrls : List String) :
    ∀ (fs : List UpFile) (outs : List (Option String)) (urls imgs : List String),
      gUrls.length < fs.length →
      galleryUploads fs (gUrls.map some ++ none :: outs) urls imgs =
        ⟨gUrls.map Ev.upload ++ Ev.uploadFail :: rollbackUploads (urls ++ gUrls),
         outs, urls ++ gUrls, imgs ++ gUrls, false⟩ := by
  induction gUrls with
  | nil =>
    intro fs outs urls imgs h
    cases fs with
    | nil => simp at h
    | cons f fs => simp [galleryUploads, takeOut]
  | cons g gs ih =>
    intro fs outs urls imgs h
    cases fs with
    | nil => simp at h
    | cons f fs =>
      simp only [List.map_cons, List.cons_append, galleryUploads, takeOut]
      rw [ih fs outs (urls ++ [g]) (imgs ++ [g]) (by simpa using h)]
      simp

theorem galleryUploads_urls_sub (fs : List UpFile) :
    ∀ (outs : List (Option String)) (urls imgs : List String),
      (galleryUploads fs outs urls imgs).urls ⊆ urls ++ someVals outs := by
  induction fs with
  | nil => intro outs urls imgs; simp [galleryUploads]
  | cons f fs ih =>
    intro outs urls imgs
    cases outs with
    | nil =>
      simp [galleryUploads, takeOut]
    | cons o rest =>
      cases o with
      | some u =>
        simp only [galleryUploads, takeOut]
        intro x hx
        have := ih rest (urls ++ [u]) (imgs ++ [u]) hx
        simp [someVals] at this ⊢
        tauto
      | none =>
        simp [galleryUploads, takeOut, someVals]

theorem galleryUploads_delFiles_sub (fs : List UpFile) :
    ∀ (outs : List (Option String)) (urls imgs us : List String),
      Ev.delFiles us ∈ (galleryUploads fs outs urls imgs).trace →
      us ⊆ urls ++ someVals outs := by
  induction fs with
  | nil => intro outs urls imgs us h; simp [galleryUploads] at h
  | cons f fs ih =>
    intro outs urls imgs us h
    cases outs with
    | nil =>
      simp only [galleryUploads, takeOut, rollbackUploads] at h
      by_cases hurls : urls.isEmpty
      · simp [hurls] at h
      · simp [hurls] at h
        subst h
        simp
    | cons o rest =>
      cases o with
      | some u =>
        simp only [galleryUploads, takeOut, List.mem_cons] at h
        rcases h with h | h
        · exact absurd h (by simp)
        · have := ih rest (urls ++ [u]) (imgs ++ [u]) us h
          intro x hx
          have hx2 := this hx
          simp [someVals] at hx2 ⊢
          tauto
      | none =>
        simp only [galleryUploads, takeOut, rollbackUploads, List.mem_cons] at h
        by_cases hurls : urls.isEmpty
        · simp [hurls] at h
        · simp [hurls] at h
          subst h
          simp

theorem galleryUploads_no_db (fs : List UpFile) :
    ∀ (outs : List (Option String)) (urls imgs : List String) (e : Ev),
      e ∈ (galleryUploads fs outs urls imgs).trace →
      isDbWrite e = false ∧ commitEv e = false := by
  induction fs with
  | nil => intro outs urls imgs e h; simp [galleryUploads] at h
  | cons f fs ih =>
    intro outs urls imgs e h
    cases outs with
    | nil =>
      simp only [galleryUploads, takeOut, rollbackUploads] at h
      by_cases hurls : urls.isEmpty
      · simp [hurls] at h
        subst h; exact ⟨rfl, rfl⟩
      · simp [hurls] at h
        rcases h with h | h <;> subst h <;> exact ⟨rfl, rfl⟩
    | cons o rest =>
      cases o with
      | some u =>
        simp only [galleryUploads, takeOut, List.mem_cons] at h
        rcases h with h | h
        · subst h; exact ⟨rfl, rfl⟩
        · exact ih rest (urls ++ [u]) (imgs ++ [u]) e h
      | none =>
        simp only [galleryUploads, takeOut, rollbackUploads, List.mem_cons] at h
        by_cases hurls : urls.isEmpty
        · simp [hurls] at h
          subst h; exact ⟨rfl, rfl⟩
        · simp [hurls] at h
          rcases h with h | h <;> subst h <;> exact ⟨rfl, rfl⟩

theorem galleryUploads_imgs_mem (fs : List UpFile) :
    ∀ (outs : List (Option String)) (urls imgs : List String) (u : String),
      u ∈ (galleryUploads fs outs urls imgs).imgs →
      u ∈ imgs ∨ Ev.upload u ∈ (galleryUploads fs outs urls imgs).trace := by
  induction fs with
  | nil => intro outs urls imgs u h; simp [galleryUploads] at h ⊢; exact h
  | cons f fs ih =>
    intro outs urls imgs u h
    cases outs with
    | nil =>
      simp only [galleryUploads, takeOut] at h ⊢
      exact Or.inl h
    | cons o rest =>
      cases o with
      | some v =>
        simp only [galleryUploads, takeOut] at h ⊢
        rcases ih rest (urls ++ [v]) (imgs ++ [v]) u h with h2 | h2
        · simp at h2
          rcases h2 with h2 | h2
          · exact Or.inl h2
          · subst h2; exact Or.inr (by simp)
        · exact Or.inr (by simp [h2])
      | none =>
        simp only [galleryUploads, takeOut] at h ⊢
        exact Or.inl h

/-! ### Lemmas about the world interpretation and the cleanup scan -/

theorem runW_append (xs ys : List Ev) (w : World) :
    runW w (xs ++ ys) = runW (runW w xs) ys := by
  simp [runW]

theorem invSteps_append (xs : List Ev) :
    ∀ (ys : List Ev) (w : World),
      invSteps w (xs ++ ys) = (invSteps w xs && invSteps (runW w xs) ys) := by
  induction xs with
  | nil => intro ys w; simp [invSteps, runW]
  | cons e xs ih =>
    intro ys w
    show (okW w && invSteps (stepW w e) (xs ++ ys)) = _
    rw [ih ys (stepW w e)]
    simp [invSteps, runW, Bool.and_assoc]

theorem stepW_dbRefs_nil (w : World) (e : Ev) (h0 : w.dbRefs = [])
    (h : commitEv e = false) : (stepW w e).dbRefs = [] := by
  cases e with
  | upload u => simpa [stepW] using h0
  | uploadFail => simpa [stepW] using h0
  | delFile u => simpa [stepW] using h0
  | delFiles us => simpa [stepW] using h0
  | dbFind b => simpa [stepW] using h0
  | dbSoftDelete b => simpa [stepW] using h0
  | dbDelete => simp [stepW]
  | dbCreate refs ok =>
    cases ok with
    | true => simp [commitEv] at h
    | false => simpa [stepW] using h0
  | dbUpdate refs ok =>
    cases ok with
    | true => simp [commitEv] at h
    | false => simpa [stepW] using h0

theorem okW_of_dbRefs_nil (w : World) (h0 : w.dbRefs = []) : okW w = true := by
  simp [okW, h0]

theorem runW_dbRefs_nil (tr : List Ev) :
    ∀ (w : World), w.dbRefs = [] → (∀ e ∈ tr, commitEv e = false) →
      (runW w tr).dbRefs = [] := by
  induction tr with
  | nil => intro w h0 _; simpa [runW] using h0
  | cons e tr ih =>
    intro w h0 h
    show (runW (stepW w e) tr).dbRefs = []
    exact ih (stepW w e) (stepW_dbRefs_nil w e h0 (h e (by simp)))
      fun x hx => h x (by simp [hx])

theorem invSteps_no_commit (tr : List Ev) :
    ∀ (w : World), w.dbRefs = [] → (∀ e ∈ tr, commitEv e = false) →
      invSteps w tr = true := by
  induction tr with
  | nil => intro w _ _; simp [invSteps]
  | cons e tr ih =>
    intro w h0 h
    simp only [invSteps, Bool.and_eq_true]
    refine ⟨okW_of_dbRefs_nil w h0, ?h2⟩
    exact ih (stepW w e) (stepW_dbRefs_nil w e h0 (h e (by simp)))
      fun x hx => h x (by simp [hx])

theorem stepW_upReq_mono (w : World) (e : Ev) (u : String) (h : u ∈ w.upReq) :
    u ∈ (stepW w e).upReq := by
  cases e <;> simp [stepW] <;> first | tauto | (split <;> simp [h])

theorem runW_upReq_mono (tr : List Ev) :
    ∀ (w : World) (u : String), u ∈ w.upReq → u ∈ (runW w tr).upReq := by
  induction tr with
  | nil => intro w u h; simpa [runW] using h
  | cons e tr ih =>
    intro w u h
    exact ih (stepW w e) u (stepW_upReq_mono w e u h)

theorem runW_upReq_of_upload (tr : List Ev) :
    ∀ (w : World) (u : String), Ev.upload u ∈ tr → u ∈ (runW w tr).upReq := by
  induction tr with
  | nil => intro w u h; simp at h
  | cons e tr ih =>
    intro w u h
    rcases List.mem_cons.mp h with h | h
    · subst h
      exact runW_upReq_mono tr (stepW w (Ev.upload u)) u (by simp [stepW])
    · exact ih (stepW w e) u h

theorem cleanupAfterCommit_append (old : String) (xs : List Ev) :
    ∀ (ys : List Ev),
      (∀ e ∈ xs, deletesTarget old e = false) →
      cleanupAfterCommit old ys = true →
      cleanupAfterCommit old (xs ++ ys) = true := by
  induction xs with
  | nil => intro ys _ h2; simpa using h2
  | cons e xs ih =>
    intro ys h h2
    have he : deletesTarget old e = false := h e (by simp)
    show cleanupAfterCommit old (e :: (xs ++ ys)) = true
    cases e with
    | dbUpdate refs ok =>
      cases ok with
      | true => simp [cleanupAfterCommit, he]
      | false =>
        simp only [cleanupAfterCommit, he, Bool.false_eq_true, if_false]
        exact ih ys (fun x hx => h x (by simp [hx])) h2
    | upload u =>
      simp only [cleanupAfterCommit, he, Bool.false_eq_true, if_false]
      exact ih ys (fun x hx => h x (by simp [hx])) h2
    | uploadFail =>
      simp only [cleanupAfterCommit, he, Bool.false_eq_true, if_false]
      exact ih ys (fun x hx => h x (by simp [hx])) h2
    | delFiles us =>
      simp only [cleanupAfterCommit, he, Bool.false_eq_true, if_false]
      exact ih ys (fun x hx => h x (by simp [hx])) h2
    | delFile u =>
      simp only [cleanupAfterCommit, he, Bool.false_eq_true, if_false]
      exact ih ys (fun x hx => h x (by simp [hx])) h2
    | dbFind b =>
      simp only [cleanupAfterCommit, he, Bool.false_eq_true, if_false]
      exact ih ys (fun x hx => h x (by simp [hx])) h2
    | dbCreate refs ok =>
      simp only [cleanupAfterCommit, he, Bool.false_eq_true, if_false]
      exact ih ys (fun x hx => h x (by simp [hx])) h2
    | dbSoftDelete b =>
      simp only [cleanupAfterCommit, he, Bool.false_eq_true, if_false]
      exact ih ys (fun x hx => h x (by simp [hx])) h2
    | dbDelete =>
      simp only [cleanupAfterCommit, he, Bool.false_eq_true, if_false]
      exact ih ys (fun x hx => h x (by simp [hx])) h2

/-! ### Claim theorems -/

/-- C10: for every POST `/api/projects` request whose body defines at least
one of the fields `price, currency, bedrooms, bathrooms, area, areaUnit,
type, status, badge`, the handler's field-parsing loop assigns to the
undeclared identifier `updates` and raises a `ReferenceError` before any
upload, so the request answers 500 with an empty effect trace: no file is
uploaded and no project document is created. -/
theorem c10_projectsCreate_field_reference_error
    (req : PostProjectsReq) (outs : List (Option String)) (saveOk : Bool)
    (h : req.hasFieldKeys = true) :
    (projectsCreate req outs saveOk).status = 500 ∧
    (projectsCreate req outs saveOk).trace = [] := by
  simp [projectsCreate, h]

/-- Witness for C10 at a concrete request carrying a `price` field, a main
image file and a gallery file. -/
theorem c10_projectsCreate_field_reference_error_witness :
    (PostProjectsReq.mk true (some ⟨"main.jpg"⟩) [⟨"g1.jpg"⟩]).hasFieldKeys = true ∧
    (projectsCreate ⟨true, some ⟨"main.jpg"⟩, [⟨"g1.jpg"⟩]⟩ [some "m"] true).status = 500 ∧
    (projectsCreate ⟨true, some ⟨"main.jpg"⟩, [⟨"g1.jpg"⟩]⟩ [some "m"] true).trace = [] :=
  ⟨rfl, c10_projectsCreate_field_reference_error ⟨true, some ⟨"main.jpg"⟩, [⟨"g1.jpg"⟩]⟩
    [some "m"] true rfl⟩

/-- C9 counterexample: the project soft-delete path (DELETE
`/api/projects/:id` without `permanent=true`) performs its
`findByIdAndUpdate` unconditionally and answers 200 even when the id does
not exist — it never answers 404, contradicting the claim for that path. -/
theorem c9_softDelete_not_404 :
    (projectsDelete ⟨false, false, "", []⟩).status = 200 ∧
    (projectsDelete ⟨false, false, "", []⟩).status ≠ 404 ∧
    (projectsDelete ⟨false, false, "", []⟩).trace = [Ev.dbSoftDelete false] := by
  refine ⟨rfl, by decide, rfl⟩

/-- C9 amended: every update path and every hard-delete path (projects,
courses, team, services) checks existence first and, when the id does not
exist, answers 404 with no upload, no storage deletion and no database
write; the project soft-delete path instead updates unconditionally and
answers 200 (with a status-only `findByIdAndUpdate` and no upload or
storage deletion) even for a nonexistent id. -/
theorem c9_notFound_before_side_effects
    (pm : String) (pis ex : List String) (mf : Option UpFile) (gf : List UpFile)
    (outs : List (Option String)) (updOk : Bool)
    (ci ti si bi : String) (cf tf sf : Option UpFile) (lc : Bool) :
    projectsUpdate ⟨false, pm, pis, mf, gf, ex⟩ outs updOk = ⟨404, [Ev.dbFind false]⟩ ∧
    projectsDelete ⟨true, false, pm, pis⟩ = ⟨404, [Ev.dbFind false]⟩ ∧
    coursesPut ⟨false, ci, cf⟩ outs updOk = ⟨404, [Ev.dbFind false]⟩ ∧
    coursesDelete false ci = ⟨404, [Ev.dbFind false]⟩ ∧
    teamPut ⟨false, ti, lc, tf, bi⟩ outs updOk = ⟨404, [Ev.dbFind false]⟩ ∧
    teamDelete false ti = ⟨404, [Ev.dbFind false]⟩ ∧
    servicesPut ⟨false, si, bi, sf⟩ outs updOk = ⟨404, [Ev.dbFind false]⟩ ∧
    servicesDelete false si = ⟨404, [Ev.dbFind false]⟩ ∧
    (projectsDelete ⟨false, false, pm, pis⟩).status = 200 ∧
    (projectsDelete ⟨false, false, pm, pis⟩).trace = [Ev.dbSoftDelete false] := by
  refine ⟨rfl, rfl, rfl, rfl, rfl, rfl, rfl, rfl, rfl, rfl⟩

/-- C8 counterexample: for a URL that does not contain the configured
bucket-path prefix, `deleteFile` is NOT a no-op: `split(bucket + "/").pop()`
returns the entire URL and a store `remove` call is issued with it. -/
theorem c8_deleteFile_non_bucket_not_noop :
    deleteFile "media" "https://other.example.com/x.jpg"
      = [["https://other.example.com/x.jpg"]] ∧
    deleteFile "media" "https://other.example.com/x.jpg" ≠ [] := by
  refine ⟨by decide, by decide⟩

/-- C8 amended: for a URL in which the bucket-path prefix does not occur
(so `split(bucket + "/")` returns the whole URL as its only component),
`deleteFiles` silently skips it — and issues no store call when every URL of
the batch is such — while `deleteFile` issues a `remove` call with the
entire URL as the path (only a falsy URL makes it a no-op).  Neither
function ever raises: both are total functions whose source wraps every
store call in a catch that only logs. -/
theorem c8_delete_non_bucket_behavior
    (bucket url : String) (urls : List String)
    (hne : url ≠ "")
    (hsplit : jsSplit (bucket ++ "/") url = [url])
    (hall : ∀ u ∈ urls, jsSplit (bucket ++ "/") u = [u]) :
    deleteFile bucket url = [[url]] ∧ deleteFiles bucket urls = [] := by
  constructor
  · simp [deleteFile, hne, hsplit]
  · unfold deleteFiles
    by_cases hurls : urls.isEmpty
    · simp [hurls]
    · simp only [hurls, Bool.false_eq_true, if_false]
      have hpaths : (urls.filterMap fun u =>
          let parts := jsSplit (bucket ++ "/") u
          if 1 < parts.length then some (parts.getD 1 "") else none) = [] := by
        rw [List.filterMap_eq_nil_iff]
        intro u hu
        simp [hall u hu]
      simp only [hpaths, List.isEmpty_nil, if_true]

/-- Witness for C8's amended theorem at the configured bucket `media` and a
URL from a different host. -/
theorem c8_delete_non_bucket_behavior_witness :
    "https://other.example.com/x.jpg" ≠ "" ∧
    deleteFile "media" "https://other.example.com/x.jpg"
      = [["https://other.example.com/x.jpg"]] ∧
    deleteFiles "media" ["https://other.example.com/x.jpg"] = [] := by
  refine ⟨by decide, ?h⟩
  exact c8_delete_non_bucket_behavior "media" "https://other.example.com/x.jpg"
    ["https://other.example.com/x.jpg"] (by decide) (by decide)
    (by intro u hu; simp at hu; subst hu; decide)

/-- C7 counterexample: a decodable 800×3000 image of 200000 bytes
(≥ 100 KiB) passes through `resize({ width: 1200, withoutEnlargement })`
untouched in both dimensions (its width is already ≤ 1200), so the longest
dimension of the output is 3000 px — the compressor does not bound the
longest dimension by 1200. -/
theorem c7_compress_tall_image_not_bounded :
    102400 ≤ (Buffer.mk 200000 800 3000 true none).size ∧
    max (compressImage (fun _ _ => 50000) (Buffer.mk 200000 800 3000 true none)).width
        (compressImage (fun _ _ => 50000) (Buffer.mk 200000 800 3000 true none)).height
      = 3000 ∧
    ¬ (max (compressImage (fun _ _ => 50000) (Buffer.mk 200000 800 3000 true none)).width
        (compressImage (fun _ _ => 50000) (Buffer.mk 200000 800 3000 true none)).height
      ≤ 1200) := by
  refine ⟨by decide, by decide, by decide⟩

/-- C7 amended: inputs under 100 KiB (< 102400 bytes) are returned
unmodified; inputs of 100 KiB or more that `sharp` can decode are
re-encoded at JPEG quality 70 with the WIDTH capped at 1200 px (never
upscaled — `min b.width 1200`), while the height is unconstrained and may
exceed 1200 for tall images; and when the pipeline throws (undecodable
buffer) the original buffer is returned, so compression failure never
aborts an upload. -/
theorem c7_compressImage_policy (encSize : Nat → Nat → Nat) (b : Buffer) :
    (b.size < 102400 → compressImage encSize b = b) ∧
    (102400 ≤ b.size → b.valid = true →
      (compressImage encSize b).width = min b.width 1200 ∧
      (compressImage encSize b).quality = some 70) ∧
    (102400 ≤ b.size → b.valid = false → compressImage encSize b = b) := by
  refine ⟨?small, ?large, ?invalid⟩
  · intro h
    have : b.size / 1024 < 100 := by omega
    simp [compressImage, this]
  · intro h hv
    have hge : ¬ (b.size / 1024 < 100) := by omega
    simp only [compressImage, hge, if_false, sharpResizeJpeg, hv]
    by_cases hw : 1200 < b.width
    · simp only [hw, if_true]
      exact ⟨by show (1200 : Nat) = min b.width 1200; omega, rfl⟩
    · simp only [hw, if_false]
      exact ⟨by show b.width = min b.width 1200; omega, rfl⟩
  · intro h hv
    have hge : ¬ (b.size / 1024 < 100) := by omega
    simp [compressImage, hge, sharpResizeJpeg, hv]

/-- Witness for C7's amended theorem: a small buffer is passed through, a
large decodable 2400×1600 buffer comes out 1200 wide at quality 70, and a
large undecodable buffer falls back to itself. -/
theorem c7_compressImage_policy_witness :
    ((Buffer.mk 50000 2000 1000 true none).size < 102400 ∧
      compressImage (fun _ _ => 1) (Buffer.mk 50000 2000 1000 true none)
        = Buffer.mk 50000 2000 1000 true none) ∧
    (102400 ≤ (Buffer.mk 300000 2400 1600 true none).size ∧
      (compressImage (fun _ _ => 1) (Buffer.mk 300000 2400 1600 true none)).width
        = min 2400 1200 ∧
      (compressImage (fun _ _ => 1) (Buffer.mk 300000 2400 1600 true none)).quality
        = some 70) ∧
    (102400 ≤ (Buffer.mk 300000 0 0 false none).size ∧
      compressImage (fun _ _ => 1) (Buffer.mk 300000 0 0 false none)
        = Buffer.mk 300000 0 0 false none) := by
  refine ⟨⟨by decide, ?s⟩, ⟨by decide, ?l⟩, ⟨by decide, ?i⟩⟩
  · exact (c7_compressImage_policy (fun _ _ => 1)
      (Buffer.mk 50000 2000 1000 true none)).1 (by decide)
  · exact (c7_compressImage_policy (fun _ _ => 1)
      (Buffer.mk 300000 2400 1600 true none)).2.1 (by decide) rfl
  · exact (c7_compressImage_policy (fun _ _ => 1)
      (Buffer.mk 300000 0 0 false none)).2.2 (by decide) rfl

/-- C6 counterexample: the `uploadFile` copy embedded in
`routes/services.js` waits `1000 * attempt` ms between attempts — 1 s then
2 s, not the claimed `2^attempt` seconds (2 s then 4 s) — when the store
write fails on all attempts. -/
theorem c6_uploadFileCopy_linear_backoff :
    attemptsOf (uploadFileCopy fun _ => Except.error "network").1 = 3 ∧
    waitsOf (uploadFileCopy fun _ => Except.error "network").1 = [1000, 2000] ∧
    waitsOf (uploadFileCopy fun _ => Except.error "network").1 ≠ [2000, 4000] := by
  refine ⟨by decide, by decide, by decide⟩

/-- C6 amended: when every attempt fails, `SupabaseService.uploadFile` in
`services/supabaseService.js` makes exactly 3 attempts, waits `2^attempt`
seconds (2000 ms then 4000 ms) between consecutive attempts and rethrows
the last error; the duplicated copy embedded in `routes/services.js` also
makes exactly 3 attempts and rethrows the last error, but waits the linear
`1000 * attempt` ms (1000 ms then 2000 ms) instead. -/
theorem c6_uploadFile_retry_exhaustion
    (res : Nat → Except String String) (e1 e2 e3 : String)
    (h1 : res 1 = Except.error e1) (h2 : res 2 = Except.error e2)
    (h3 : res 3 = Except.error e3) :
    uploadFile res =
      ([UpEv.att 1 false, UpEv.wait 2000, UpEv.att 2 false, UpEv.wait 4000,
        UpEv.att 3 false], Except.error e3) ∧
    uploadFileCopy res =
      ([UpEv.att 1 false, UpEv.wait 1000, UpEv.att 2 false, UpEv.wait 2000,
        UpEv.att 3 false], Except.error e3) := by
  constructor
  · show uploadFileGo res 3 1 3 = _
    simp [uploadFileGo, h1, h2, h3]
  · show uploadFileCopyGo res 3 1 3 = _
    simp [uploadFileCopyGo, h1, h2, h3]

/-- Witness for C6's amended theorem at an oracle failing all attempts. -/
theorem c6_uploadFile_retry_exhaustion_witness :
    (fun _ : Nat => Except.error (ε := String) (α := String) "network") 1
        = Except.error "network" ∧
    uploadFile (fun _ => Except.error "network") =
      ([UpEv.att 1 false, UpEv.wait 2000, UpEv.att 2 false, UpEv.wait 4000,
        UpEv.att 3 false], Except.error "network") ∧
    uploadFileCopy (fun _ => Except.error "network") =
      ([UpEv.att 1 false, UpEv.wait 1000, UpEv.att 2 false, UpEv.wait 2000,
        UpEv.att 3 false], Except.error "network") := by
  refine ⟨rfl, ?h⟩
  exact c6_uploadFile_retry_exhaustion (fun _ => Except.error "network")
    "network" "network" "network" rfl rfl rfl

/-- C1 (confirmed): on both POST `/api/projects` and PUT `/api/projects/:id`,
when gallery upload task `k` of `n` (`k < n`, here `k = gUrls.length + 1`)
fails after tasks `1..k-1` succeeded, every URL uploaded earlier in the
request — the new main image `mu` and the successful gallery URLs — is
passed to a `deleteFiles` batch-delete (rollback) call, and no database
write of any kind occurs in the request. -/
theorem c1_gallery_failure_rollback
    (f : UpFile) (fs : List UpFile) (gUrls : List String) (mu : String)
    (rest : List (Option String)) (saveOk : Bool)
    (pm : String) (pis ex : List String) (updOk : Bool)
    (hk : gUrls.length < fs.length) :
    ((∀ u ∈ mu :: gUrls, ∃ us,
        Ev.delFiles us ∈ (projectsCreate ⟨false, some f, fs⟩
          (some mu :: (gUrls.map some ++ none :: rest)) saveOk).trace ∧ u ∈ us) ∧
      (∀ e ∈ (projectsCreate ⟨false, some f, fs⟩
          (some mu :: (gUrls.map some ++ none :: rest)) saveOk).trace,
        isDbWrite e = false)) ∧
    ((∀ u ∈ mu :: gUrls, ∃ us,
        Ev.delFiles us ∈ (projectsUpdate ⟨true, pm, pis, some f, fs, ex⟩
          (some mu :: (gUrls.map some ++ none :: rest)) updOk).trace ∧ u ∈ us) ∧
      (∀ e ∈ (projectsUpdate ⟨true, pm, pis, some f, fs, ex⟩
          (some mu :: (gUrls.map some ++ none :: rest)) updOk).trace,
        isDbWrite e = false)) := by
  have hgc := galleryUploads_fail gUrls fs rest [mu] [] hk
  have hgu := galleryUploads_fail gUrls fs rest [mu] ex hk
  have hc : (projectsCreate ⟨false, some f, fs⟩
      (some mu :: (gUrls.map some ++ none :: rest)) saveOk).trace
      = [Ev.upload mu] ++
        (gUrls.map Ev.upload ++ Ev.uploadFail :: rollbackUploads (mu :: gUrls)) ++
        [Ev.delFiles (mu :: gUrls)] := by
    simp only [projectsCreate, projectsCreateRest, takeOut]
    rw [show ([mu] ++ gUrls : List String) = mu :: gUrls from rfl] at hgc
    rw [hgc]
    simp [rollbackUploads]
  have hu : (projectsUpdate ⟨true, pm, pis, some f, fs, ex⟩
      (some mu :: (gUrls.map some ++ none :: rest)) updOk).trace
      = [Ev.dbFind true, Ev.upload mu] ++
        (gUrls.map Ev.upload ++ Ev.uploadFail :: rollbackUploads (mu :: gUrls)) ++
        [Ev.delFiles (mu :: gUrls)] := by
    simp only [projectsUpdate, projectsUpdateRest, takeOut]
    rw [show ([mu] ++ gUrls : List String) = mu :: gUrls from rfl] at hgu
    rw [hgu]
    simp [rollbackUploads]
  refine ⟨⟨?ca, ?cb⟩, ?ua, ?ub⟩
  · intro u hu2
    refine ⟨mu :: gUrls, ?mem, hu2⟩
    rw [hc]; simp
  · intro e he
    cases e <;> try rfl
    all_goals rw [hc] at he
    all_goals simp [rollbackUploads] at he
  · intro u hu2
    refine ⟨mu :: gUrls, ?mem2, hu2⟩
    rw [hu]; simp
  · intro e he
    cases e <;> try rfl
    all_goals rw [hu] at he
    all_goals simp [rollbackUploads] at he

/-- Witness for C1: one gallery file whose upload fails right after the main
image succeeded. -/
theorem c1_gallery_failure_rollback_witness :
    ([] : List String).length < [UpFile.mk "g1.jpg"].length ∧
    (∃ us, Ev.delFiles us ∈ (projectsCreate ⟨false, some ⟨"main.jpg"⟩, [⟨"g1.jpg"⟩]⟩
        [some "m", none] true).trace ∧ "m" ∈ us) ∧
    (∀ e ∈ (projectsCreate ⟨false, some ⟨"main.jpg"⟩, [⟨"g1.jpg"⟩]⟩
        [some "m", none] true).trace, isDbWrite e = false) ∧
    (∃ us, Ev.delFiles us ∈ (projectsUpdate ⟨true, "OLD", ["A"], some ⟨"main.jpg"⟩,
        [⟨"g1.jpg"⟩], []⟩ [some "m", none] true).trace ∧ "m" ∈ us) ∧
    (∀ e ∈ (projectsUpdate ⟨true, "OLD", ["A"], some ⟨"main.jpg"⟩,
        [⟨"g1.jpg"⟩], []⟩ [some "m", none] true).trace, isDbWrite e = false) := by
  have h := c1_gallery_failure_rollback ⟨"g1.jpg"⟩ [⟨"g1.jpg"⟩] [] "m" [] true
    "OLD" ["A"] [] true (by decide)
  exact ⟨by decide, h.1.1 "m" (by simp), h.1.2, h.2.1 "m" (by simp), h.2.2⟩

theorem countP_deletes_map_upload (u : String) (l : List String) :
    (l.map Ev.upload).countP (deletesTarget u) = 0 := by
  rw [List.countP_eq_zero]
  intro e he
  rcases List.mem_map.mp he with ⟨x, _, rfl⟩
  simp [deletesTarget]

/-- C5 counterexample: a POST `/api/projects` whose single gallery upload
fails after the main image succeeded passes the main image URL to a rollback
batch-delete call TWICE (once in the gallery loop's inner catch, once again
in the handler's outer catch), not exactly once as claimed. -/
theorem c5_double_rollback_counterexample :
    Ev.upload "m" ∈ (projectsCreate ⟨false, some ⟨"main.jpg"⟩, [⟨"g1.jpg"⟩]⟩
      [some "m", none] true).trace ∧
    delPassCount ((projectsCreate ⟨false, some ⟨"main.jpg"⟩, [⟨"g1.jpg"⟩]⟩
      [some "m", none] true).trace) "m" = 2 ∧
    (2 : Nat) ≠ 1 := by
  refine ⟨by decide, by decide, by decide⟩

/-- C5 amended: on the projects routes — both POST `/api/projects` and PUT
`/api/projects/:id` — no uploaded URL is skipped by rollback, but the number
of delete calls receiving it depends on the failure point: after an upload
failure each URL of the batch is passed to a batch-delete exactly TWICE (the
gallery loop's inner catch rolls back and rethrows, then the outer catch
rolls back the same list again), while after a database-write failure each
URL is passed exactly once. -/
theorem c5_rollback_attempt_counts
    (f : UpFile) (fs : List UpFile) (gUrls : List String) (mu : String)
    (rest : List (Option String)) (pm : String) (pis ex : List String) :
    (gUrls.length < fs.length →
      ∀ u ∈ mu :: gUrls,
        delPassCount ((projectsCreate ⟨false, some f, fs⟩
          (some mu :: (gUrls.map some ++ none :: rest)) true).trace) u = 2) ∧
    (gUrls.length = fs.length →
      ∀ u ∈ mu :: gUrls,
        delPassCount ((projectsCreate ⟨false, some f, fs⟩
          (some mu :: (gUrls.map some ++ rest)) false).trace) u = 1) ∧
    (gUrls.length < fs.length →
      ∀ u ∈ mu :: gUrls,
        delPassCount ((projectsUpdate ⟨true, pm, pis, some f, fs, ex⟩
          (some mu :: (gUrls.map some ++ none :: rest)) true).trace) u = 2) ∧
    (gUrls.length = fs.length →
      ∀ u ∈ mu :: gUrls,
        delPassCount ((projectsUpdate ⟨true, pm, pis, some f, fs, ex⟩
          (some mu :: (gUrls.map some ++ rest)) false).trace) u = 1) := by
  refine ⟨?_, ?_, ?_, ?_⟩
  · intro hk u hu
    have hgc := galleryUploads_fail gUrls fs rest [mu] [] hk
    have hc : (projectsCreate ⟨false, some f, fs⟩
        (some mu :: (gUrls.map some ++ none :: rest)) true).trace
        = [Ev.upload mu] ++
          (gUrls.map Ev.upload ++ Ev.uploadFail :: rollbackUploads (mu :: gUrls)) ++
          [Ev.delFiles (mu :: gUrls)] := by
      simp only [projectsCreate, projectsCreateRest, takeOut]
      rw [show ([mu] ++ gUrls : List String) = mu :: gUrls from rfl] at hgc
      rw [hgc]
      simp [rollbackUploads]
    rw [hc]
    have hcont : (mu :: gUrls).contains u = true := by simp [hu]
    have h0 : List.countP (deletesTarget u ∘ Ev.upload) gUrls = 0 := by
      rw [List.countP_eq_zero]
      intro x hx
      simp [deletesTarget]
    have hd : u = mu ∨ u ∈ gUrls := List.mem_cons.mp hu
    simp [delPassCount, List.countP_append, List.countP_cons, rollbackUploads,
      deletesTarget, hcont, h0, hd]
  · intro hlen u hu
    have hgc := galleryUploads_succ gUrls fs rest [mu] [] hlen
    have hc : (projectsCreate ⟨false, some f, fs⟩
        (some mu :: (gUrls.map some ++ rest)) false).trace
        = [Ev.upload mu] ++ gUrls.map Ev.upload ++
          [Ev.dbCreate (mu :: gUrls) false] ++ [Ev.delFiles (mu :: gUrls)] := by
      simp only [projectsCreate, projectsCreateRest, takeOut]
      rw [hgc]
      simp [rollbackUploads]
    rw [hc]
    have hcont : (mu :: gUrls).contains u = true := by simp [hu]
    have h0 : List.countP (deletesTarget u ∘ Ev.upload) gUrls = 0 := by
      rw [List.countP_eq_zero]
      intro x hx
      simp [deletesTarget]
    have hd : u = mu ∨ u ∈ gUrls := List.mem_cons.mp hu
    simp [delPassCount, List.countP_append, List.countP_cons,
      deletesTarget, hcont, h0, hd]
  · intro hk u hu
    have hgu := galleryUploads_fail gUrls fs rest [mu] ex hk
    have hc : (projectsUpdate ⟨true, pm, pis, some f, fs, ex⟩
        (some mu :: (gUrls.map some ++ none :: rest)) true).trace
        = [Ev.dbFind true, Ev.upload mu] ++
          (gUrls.map Ev.upload ++ Ev.uploadFail :: rollbackUploads (mu :: gUrls)) ++
          [Ev.delFiles (mu :: gUrls)] := by
      simp only [projectsUpdate, projectsUpdateRest, takeOut]
      rw [show ([mu] ++ gUrls : List String) = mu :: gUrls from rfl] at hgu
      rw [hgu]
      simp [rollbackUploads]
    rw [hc]
    have hcont : (mu :: gUrls).contains u = true := by simp [hu]
    have h0 : List.countP (deletesTarget u ∘ Ev.upload) gUrls = 0 := by
      rw [List.countP_eq_zero]
      intro x hx
      simp [deletesTarget]
    have hd : u = mu ∨ u ∈ gUrls := List.mem_cons.mp hu
    simp [delPassCount, List.countP_append, List.countP_cons, rollbackUploads,
      deletesTarget, hcont, h0, hd]
  · intro hlen u hu
    have hgu := galleryUploads_succ gUrls fs rest [mu] ex hlen
    have hcont : (mu :: gUrls).contains u = true := by simp [hu]
    have h0 : List.countP (deletesTarget u ∘ Ev.upload) gUrls = 0 := by
      rw [List.countP_eq_zero]
      intro x hx
      simp [deletesTarget]
    have hd : u = mu ∨ u ∈ gUrls := List.mem_cons.mp hu
    simp only [projectsUpdate, projectsUpdateRest, takeOut]
    rw [hgu]
    simp [delPassCount, List.countP_append, List.countP_cons, rollbackUploads,
      deletesTarget, hcont, h0, hd]

/-- Witness for C5's amended theorem: both failure shapes at one gallery
file, on both the create and the update route (upload failure: the main URL
is deleted twice; DB failure: once). -/
theorem c5_rollback_attempt_counts_witness :
    ([] : List String).length < [UpFile.mk "g1.jpg"].length ∧
    delPassCount ((projectsCreate ⟨false, some ⟨"main.jpg"⟩, [⟨"g1.jpg"⟩]⟩
      [some "m", none] true).trace) "m" = 2 ∧
    delPassCount ((projectsCreate ⟨false, some ⟨"main.jpg"⟩, [⟨"g1.jpg"⟩]⟩
      [some "m", some "g"] false).trace) "g" = 1 ∧
    delPassCount ((projectsUpdate ⟨true, "OLD", ["A"], some ⟨"main.jpg"⟩, [⟨"g1.jpg"⟩], []⟩
      [some "m", none] true).trace) "m" = 2 ∧
    delPassCount ((projectsUpdate ⟨true, "OLD", ["A"], some ⟨"main.jpg"⟩, [⟨"g1.jpg"⟩], []⟩
      [some "m", some "g"] false).trace) "g" = 1 := by
  have h := c5_rollback_attempt_counts ⟨"g1.jpg"⟩ [⟨"g1.jpg"⟩] [] "m" []
    "OLD" ["A"] []
  have h2 := c5_rollback_attempt_counts ⟨"g1.jpg"⟩ [⟨"g1.jpg"⟩] ["g"] "m" []
    "OLD" ["A"] []
  refine ⟨by decide, ?_, ?_, ?_, ?_⟩
  · exact h.1 (by decide) "m" (by simp)
  · exact h2.2.1 (by decide) "g" (by simp)
  · exact h.2.2.1 (by decide) "m" (by simp)
  · exact h2.2.2.2 (by decide) "g" (by simp)

/-- C4 counterexample: POST `/api/courses` with a successful image upload
and a failing `Course.create` answers 500 WITHOUT passing the uploaded URL
to any delete call — its catch has no rollback, orphaning the upload. -/
theorem c4_coursesCreate_no_rollback :
    (coursesCreate ⟨some ⟨"img.jpg"⟩, ""⟩
      [some "https://abc.supabase.co/storage/v1/object/public/media/courses/new.jpg"]
      false).status = 500 ∧
    Ev.upload "https://abc.supabase.co/storage/v1/object/public/media/courses/new.jpg"
      ∈ (coursesCreate ⟨some ⟨"img.jpg"⟩, ""⟩
        [some "https://abc.supabase.co/storage/v1/object/public/media/courses/new.jpg"]
        false).trace ∧
    delPassCount ((coursesCreate ⟨some ⟨"img.jpg"⟩, ""⟩
      [some "https://abc.supabase.co/storage/v1/object/public/media/courses/new.jpg"]
      false).trace)
      "https://abc.supabase.co/storage/v1/object/public/media/courses/new.jpg" = 0 := by
  refine ⟨by decide, by decide, by decide⟩

/-- C4 amended: when all uploads of a create request succeed and the
database write then fails, the projects route batch-deletes its entire
UploadBatch, and the team and services routes delete their uploaded
main/icon image; the courses route, however, performs NO rollback and
orphans its uploaded image. -/
theorem c4_db_failure_rollback
    (f : UpFile) (fs : List UpFile) (gUrls : List String) (mu u : String)
    (rest : List (Option String)) (treq : PostTeamReq) (sreq : PostServicesReq)
    (hlen : gUrls.length = fs.length)
    (ht1 : treq.translationsOk = true) (ht2 : treq.emailGiven = true)
    (ht3 : treq.licenseConflict = false) (ht4 : treq.imageFile = some f)
    (hs1 : sreq.iconFile = some f) (hs2 : sreq.requiredOk = true)
    (hu1 : u ≠ "") (hu2 : jsIncludes u "supabase" = true)
    (hu3 : 2 ≤ (jsSplit "/media/" u).length) :
    (∀ v ∈ mu :: gUrls, ∃ us,
        Ev.delFiles us ∈ (projectsCreate ⟨false, some f, fs⟩
          (some mu :: (gUrls.map some ++ rest)) false).trace ∧ v ∈ us) ∧
    Ev.delFile u ∈ (teamCreate treq [some u] false).trace ∧
    Ev.delFile u ∈ (servicesCreate sreq [some u] false).trace ∧
    (∀ e ∈ (coursesCreate ⟨some f, ""⟩ [some u] false).trace,
      isStorageDelete e = false) := by
  have hgc := galleryUploads_succ gUrls fs rest [mu] [] hlen
  have hc : (projectsCreate ⟨false, some f, fs⟩
      (some mu :: (gUrls.map some ++ rest)) false).trace
      = [Ev.upload mu] ++ gUrls.map Ev.upload ++
        [Ev.dbCreate (mu :: gUrls) false] ++ [Ev.delFiles (mu :: gUrls)] := by
    simp only [projectsCreate, projectsCreateRest, takeOut]
    rw [hgc]
    simp [rollbackUploads]
  have hdel : deleteImageFromSupabase u = [Ev.delFile u] := by
    have h3 : ¬ ((jsSplit "/media/" u).length < 2) := by omega
    simp [deleteImageFromSupabase, hu1, hu2, h3]
  refine ⟨?proj, ?team, ?serv, ?cour⟩
  · intro v hv
    refine ⟨mu :: gUrls, ?mem, hv⟩
    rw [hc]; simp
  · simp [teamCreate, ht1, ht2, ht3, ht4, takeOut]
  · simp [servicesCreate, hs1, hs2, takeOut, hdel]
  · intro e he
    cases e <;> try rfl
    all_goals simp [coursesCreate, takeOut] at he

/-- Witness for C4's amended theorem at concrete requests whose database
writes fail after one successful upload each. -/
theorem c4_db_failure_rollback_witness :
    (["g"] : List String).length = [UpFile.mk "g1.jpg"].length ∧
    (∃ us, Ev.delFiles us ∈ (projectsCreate ⟨false, some ⟨"main.jpg"⟩, [⟨"g1.jpg"⟩]⟩
        [some "m", some "g"] false).trace ∧ "m" ∈ us) ∧
    Ev.delFile "https://abc.supabase.co/storage/v1/object/public/media/team/t.jpg"
      ∈ (teamCreate ⟨true, true, false, "", some ⟨"t.jpg"⟩⟩
        [some "https://abc.supabase.co/storage/v1/object/public/media/team/t.jpg"]
        false).trace ∧
    Ev.delFile "https://abc.supabase.co/storage/v1/object/public/media/team/t.jpg"
      ∈ (servicesCreate ⟨"", some ⟨"t.jpg"⟩, true⟩
        [some "https://abc.supabase.co/storage/v1/object/public/media/team/t.jpg"]
        false).trace ∧
    (∀ e ∈ (coursesCreate ⟨some ⟨"t.jpg"⟩, ""⟩
        [some "https://abc.supabase.co/storage/v1/object/public/media/team/t.jpg"]
        false).trace, isStorageDelete e = false) := by
  have h := c4_db_failure_rollback ⟨"t.jpg"⟩ [⟨"g1.jpg"⟩] ["g"] "m"
    "https://abc.supabase.co/storage/v1/object/public/media/team/t.jpg" []
    ⟨true, true, false, "", some ⟨"t.jpg"⟩⟩ ⟨"", some ⟨"t.jpg"⟩, true⟩
    (by decide) rfl rfl rfl rfl rfl rfl (by decide) (by decide) (by decide)
  exact ⟨by decide, h.1 "m" (by simp), h.2.1, h.2.2.1, h.2.2.2⟩

theorem galleryUploads_events (fs : List UpFile) :
    ∀ (outs : List (Option String)) (urls imgs : List String) (e : Ev),
      e ∈ (galleryUploads fs outs urls imgs).trace →
      (∃ u, e = Ev.upload u) ∨ e = Ev.uploadFail ∨
      (∃ us, e = Ev.delFiles us ∧ us ⊆ urls ++ someVals outs) := by
  induction fs with
  | nil => intro outs urls imgs e h; simp [galleryUploads] at h
  | cons f fs ih =>
    intro outs urls imgs e h
    cases outs with
    | nil =>
      simp only [galleryUploads, takeOut, rollbackUploads, List.mem_cons] at h
      by_cases hurls : urls.isEmpty
      · simp [hurls] at h
        subst h; exact Or.inr (Or.inl rfl)
      · simp [hurls] at h
        rcases h with h | h
        · subst h; exact Or.inr (Or.inl rfl)
        · subst h; exact Or.inr (Or.inr ⟨urls, rfl, by simp⟩)
    | cons o rest =>
      cases o with
      | some u =>
        simp only [galleryUploads, takeOut, List.mem_cons] at h
        rcases h with h | h
        · subst h; exact Or.inl ⟨u, rfl⟩
        · rcases ih rest (urls ++ [u]) (imgs ++ [u]) e h with h2 | h2 | ⟨us, he, hsub⟩
          · exact Or.inl h2
          · exact Or.inr (Or.inl h2)
          · refine Or.inr (Or.inr ⟨us, he, ?sub⟩)
            intro x hx
            have := hsub hx
            simp [someVals] at this ⊢
            tauto
      | none =>
        simp only [galleryUploads, takeOut, rollbackUploads, List.mem_cons] at h
        by_cases hurls : urls.isEmpty
        · simp [hurls] at h
          subst h; exact Or.inr (Or.inl rfl)
        · simp [hurls] at h
          rcases h with h | h
          · subst h; exact Or.inr (Or.inl rfl)
          · subst h
            exact Or.inr (Or.inr ⟨urls, rfl, by simp⟩)

theorem galleryUploads_no_target (fs : List UpFile) (outs : List (Option String))
    (urls imgs : List String) (old : String)
    (hold : old ∉ urls ++ someVals outs) :
    ∀ e ∈ (galleryUploads fs outs urls imgs).trace, deletesTarget old e = false := by
  intro e he
  rcases galleryUploads_events fs outs urls imgs e he with ⟨u, rfl⟩ | rfl | ⟨us, rfl, hsub⟩
  · rfl
  · rfl
  · have : old ∉ us := fun hmem => hold (hsub hmem)
    simp [deletesTarget, this]

theorem cleanup_rollback (old : String) (L : List String) (h : old ∉ L) :
    cleanupAfterCommit old (rollbackUploads L) = true := by
  unfold rollbackUploads
  by_cases hL : L.isEmpty
  · simp [hL, cleanupAfterCommit]
  · simp [hL, cleanupAfterCommit, deletesTarget, h]

theorem cleanup_commit_head (old : String) (refs : List String) (X : List Ev) :
    cleanupAfterCommit old (Ev.dbUpdate refs true :: X) = true := by
  simp [cleanupAfterCommit, deletesTarget]

theorem cleanup_failed_update_head (old : String) (refs : List String) (X : List Ev) :
    cleanupAfterCommit old (Ev.dbUpdate refs false :: X) = cleanupAfterCommit old X := by
  simp [cleanupAfterCommit, deletesTarget]

theorem cleanup_find_del (old : String) (b : Bool) (X : List Ev) :
    cleanupAfterCommit old (Ev.dbFind b :: Ev.delFile old :: X) = false := by
  simp [cleanupAfterCommit, deletesTarget]

theorem cleanup_find_up_del (old nu : String) (b : Bool) (X : List Ev) :
    cleanupAfterCommit old (Ev.dbFind b :: Ev.upload nu :: Ev.delFile old :: X) = false := by
  simp [cleanupAfterCommit, deletesTarget]

theorem projectsUpdateRest_cleanup (req : PutProjectsReq) (nu : String)
    (outs1 : List (Option String)) (updOk : Bool)
    (hold : req.projMainImage ∉ ([nu] ++ someVals outs1)) :
    cleanupAfterCommit req.projMainImage
      (projectsUpdateRest req (some nu) outs1 updOk).trace = true := by
  have hnt := galleryUploads_no_target req.galleryFiles outs1 [nu]
    req.existingImages req.projMainImage hold
  have hus := galleryUploads_urls_sub req.galleryFiles outs1 [nu] req.existingImages
  have hnotin : req.projMainImage ∉
      (galleryUploads req.galleryFiles outs1 [nu] req.existingImages).urls :=
    fun hmem => hold (hus hmem)
  have hpre : ∀ e ∈ [Ev.dbFind true, Ev.upload nu],
      deletesTarget req.projMainImage e = false := by
    intro e he
    rcases List.mem_cons.mp he with he | he
    · subst he; rfl
    · rcases List.mem_cons.mp he with he | he
      · subst he; rfl
      · simp at he
  simp only [projectsUpdateRest]
  by_cases hok : (galleryUploads req.galleryFiles outs1 [nu] req.existingImages).ok
  · simp only [hok, if_true]
    cases updOk with
    | true =>
      simp only [if_true]
      rw [List.append_assoc, List.append_assoc]
      refine cleanupAfterCommit_append _ _ _ hpre ?rest
      refine cleanupAfterCommit_append _ _ _ hnt ?rest2
      rw [List.singleton_append]
      exact cleanup_commit_head _ _ _
    | false =>
      simp only [Bool.false_eq_true, if_false]
      rw [List.append_assoc, List.append_assoc]
      refine cleanupAfterCommit_append _ _ _ hpre ?rest3
      refine cleanupAfterCommit_append _ _ _ hnt ?rest4
      rw [List.singleton_append, cleanup_failed_update_head]
      exact cleanup_rollback _ _ hnotin
  · simp only [hok, Bool.false_eq_true, if_false]
    rw [List.append_assoc]
    refine cleanupAfterCommit_append _ _ _ hpre ?rest5
    refine cleanupAfterCommit_append _ _ _ hnt ?rest6
    exact cleanup_rollback _ _ hnotin

theorem projectsUpdateRest_cleanup_nomain (req : PutProjectsReq)
    (outs1 : List (Option String)) (updOk : Bool)
    (hold : req.projMainImage ∉ someVals outs1) :
    cleanupAfterCommit req.projMainImage
      (projectsUpdateRest req none outs1 updOk).trace = true := by
  have hnt := galleryUploads_no_target req.galleryFiles outs1 []
    req.existingImages req.projMainImage (by simpa using hold)
  have hus := galleryUploads_urls_sub req.galleryFiles outs1 [] req.existingImages
  have hnotin : req.projMainImage ∉
      (galleryUploads req.galleryFiles outs1 [] req.existingImages).urls :=
    fun hmem => hold (by simpa using hus hmem)
  have hpre : ∀ e ∈ [Ev.dbFind true],
      deletesTarget req.projMainImage e = false := by
    intro e he
    rcases List.mem_cons.mp he with he | he
    · subst he; rfl
    · simp at he
  simp only [projectsUpdateRest]
  by_cases hok : (galleryUploads req.galleryFiles outs1 [] req.existingImages).ok
  · simp only [hok, if_true]
    cases updOk with
    | true =>
      simp only [if_true]
      rw [List.append_assoc, List.append_assoc]
      refine cleanupAfterCommit_append _ _ _ hpre ?rest
      refine cleanupAfterCommit_append _ _ _ hnt ?rest2
      rw [List.singleton_append]
      exact cleanup_commit_head _ _ _
    | false =>
      simp only [Bool.false_eq_true, if_false]
      rw [List.append_assoc, List.append_assoc]
      refine cleanupAfterCommit_append _ _ _ hpre ?rest3
      refine cleanupAfterCommit_append _ _ _ hnt ?rest4
      rw [List.singleton_append, cleanup_failed_update_head]
      exact cleanup_rollback _ _ hnotin
  · simp only [hok, Bool.false_eq_true, if_false]
    rw [List.append_assoc]
    refine cleanupAfterCommit_append _ _ _ hpre ?rest5
    refine cleanupAfterCommit_append _ _ _ hnt ?rest6
    exact cleanup_rollback _ _ hnotin

theorem teamPut_cleanup (req : PutTeamReq) (outs : List (Option String))
    (updOk : Bool)
    (hfresh : ∀ o ∈ outs, o ≠ some req.memberImage) :
    cleanupAfterCommit req.memberImage (teamPut req outs updOk).trace = true := by
  by_cases hf : req.memberFound
  · by_cases hl : req.licenseConflict
    · simp [teamPut, hf, hl, cleanupAfterCommit, deletesTarget]
    · cases hm : req.imageFile with
      | some f =>
        cases outs with
        | nil => simp [teamPut, hf, hl, hm, takeOut, cleanupAfterCommit, deletesTarget]
        | cons o rest =>
          cases o with
          | none => simp [teamPut, hf, hl, hm, takeOut, cleanupAfterCommit, deletesTarget]
          | some nu =>
            have hnu : nu ≠ req.memberImage := by
              intro hcontra
              exact hfresh (some nu) (by simp) (by rw [hcontra])
            cases updOk with
            | true =>
              simp [teamPut, hf, hl, hm, takeOut, cleanupAfterCommit, deletesTarget]
            | false =>
              simp [teamPut, hf, hl, hm, takeOut, cleanupAfterCommit, deletesTarget, hnu]
      | none =>
        cases updOk with
        | true => simp [teamPut, hf, hl, hm, cleanupAfterCommit, deletesTarget]
        | false => simp [teamPut, hf, hl, hm, cleanupAfterCommit, deletesTarget]
  · simp [teamPut, hf, cleanupAfterCommit, deletesTarget]

/-- C2 counterexample: a successful PUT `/api/courses/:id` that replaces the
image (status 200, new image uploaded) deletes the OLD image BEFORE the
`findByIdAndUpdate` call — the delete is not issued after the database
update returns, contradicting the claim for the courses entity type. -/
theorem c2_coursesPut_deletes_old_before_update :
    (coursesPut ⟨true,
      "https://abc.supabase.co/storage/v1/object/public/media/courses/old.jpg",
      some ⟨"new.jpg"⟩⟩ [some "NEW"] true).status = 200 ∧
    Ev.upload "NEW" ∈ (coursesPut ⟨true,
      "https://abc.supabase.co/storage/v1/object/public/media/courses/old.jpg",
      some ⟨"new.jpg"⟩⟩ [some "NEW"] true).trace ∧
    cleanupAfterCommit
      "https://abc.supabase.co/storage/v1/object/public/media/courses/old.jpg"
      (coursesPut ⟨true,
        "https://abc.supabase.co/storage/v1/object/public/media/courses/old.jpg",
        some ⟨"new.jpg"⟩⟩ [some "NEW"] true).trace = false := by
  refine ⟨by decide, by decide, by decide⟩

/-- C2 amended: the commit-then-cleanup ordering holds for projects and team
members — on those update paths, assuming the freshly generated upload URLs
differ from the stored old image URL, no delete call ever receives the old
main image before a successful `findByIdAndUpdate` — but NOT for courses and
services: the courses route deletes the old image before the new upload and
before the database write, and the services route deletes the old icon after
the upload but still before the database write (in both cases the delete
also happens when the subsequent update fails). -/
theorem c2_old_image_delete_ordering
    (preq : PutProjectsReq) (treq : PutTeamReq) (creq : PutCoursesReq)
    (sreq : PutServicesReq) (outs srest : List (Option String))
    (updOk : Bool) (f : UpFile) (nu : String)
    (hp : ∀ o ∈ outs, o ≠ some preq.projMainImage)
    (ht : ∀ o ∈ outs, o ≠ some treq.memberImage)
    (hc1 : creq.courseFound = true) (hc2 : creq.imageFile = some f)
    (hc3 : creq.courseImage ≠ "")
    (hc4 : jsIncludes creq.courseImage "supabase" = true)
    (hs1 : sreq.serviceFound = true) (hs2 : sreq.iconFile = some f)
    (hs3 : sreq.serviceIcon ≠ "") (hs4 : nu ≠ "") (hs5 : sreq.serviceIcon ≠ nu)
    (hs6 : jsIncludes sreq.serviceIcon "supabase" = true)
    (hs7 : 2 ≤ (jsSplit "/media/" sreq.serviceIcon).length) :
    cleanupAfterCommit preq.projMainImage
      (projectsUpdate preq outs updOk).trace = true ∧
    cleanupAfterCommit treq.memberImage (teamPut treq outs updOk).trace = true ∧
    cleanupAfterCommit creq.courseImage (coursesPut creq outs updOk).trace = false ∧
    cleanupAfterCommit sreq.serviceIcon
      (servicesPut sreq (some nu :: srest) updOk).trace = false := by
  refine ⟨?proj, teamPut_cleanup treq outs updOk ht, ?cour, ?serv⟩
  · by_cases hf : preq.projFound
    · cases hm : preq.mainImageFile with
      | some f2 =>
        cases outs with
        | nil => simp [projectsUpdate, hf, hm, takeOut, cleanupAfterCommit, deletesTarget]
        | cons o rest =>
          cases o with
          | none =>
            simp [projectsUpdate, hf, hm, takeOut, cleanupAfterCommit, deletesTarget]
          | some nu2 =>
            have hold : preq.projMainImage ∉ ([nu2] ++ someVals rest) := by
              intro hmem
              rcases List.mem_append.mp hmem with hmem | hmem
              · simp at hmem
                exact hp (some nu2) (by simp) (by rw [hmem])
              · rcases List.mem_filterMap.mp hmem with ⟨o, ho, hid⟩
                exact hp o (by simp [ho]) (by simpa using hid)
            have := projectsUpdateRest_cleanup preq nu2 rest updOk hold
            simpa [projectsUpdate, hf, hm, takeOut] using this
      | none =>
        have hold : preq.projMainImage ∉ someVals outs := by
          intro hmem
          rcases List.mem_filterMap.mp hmem with ⟨o, ho, hid⟩
          exact hp o ho (by simpa using hid)
        have := projectsUpdateRest_cleanup_nomain preq outs updOk hold
        simpa [projectsUpdate, hf, hm] using this
    · simp [projectsUpdate, hf, cleanupAfterCommit, deletesTarget]
  · simp only [coursesPut, hc1, hc2, if_true, if_pos (And.intro hc3 hc4)]
    cases outs with
    | nil =>
      cases updOk with
      | true => exact cleanup_find_del _ _ _
      | false => exact cleanup_find_del _ _ _
    | cons o rest =>
      cases o with
      | some u =>
        cases updOk with
        | true => exact cleanup_find_del _ _ _
        | false => exact cleanup_find_del _ _ _
      | none =>
        cases updOk with
        | true => exact cleanup_find_del _ _ _
        | false => exact cleanup_find_del _ _ _
  · have hdel : deleteImageFromSupabase sreq.serviceIcon = [Ev.delFile sreq.serviceIcon] := by
      have h3 : ¬ ((jsSplit "/media/" sreq.serviceIcon).length < 2) := by omega
      simp [deleteImageFromSupabase, hs3, hs6, h3]
    simp only [servicesPut, hs1, hs2, if_true, takeOut,
      if_pos (And.intro hs3 (And.intro hs4 hs5)), hdel]
    cases updOk with
    | true => exact cleanup_find_up_del _ _ _ _
    | false => exact cleanup_find_up_del _ _ _ _

/-- Witness for C2's amended theorem at concrete update requests for all
four entity types. -/
theorem c2_old_image_delete_ordering_witness :
    jsIncludes "https://abc.supabase.co/storage/v1/object/public/media/courses/old.jpg"
      "supabase" = true ∧
    cleanupAfterCommit "OLD"
      (projectsUpdate ⟨true, "OLD", ["A"], some ⟨"m.jpg"⟩, [], []⟩ [some "N"] true).trace
      = true ∧
    cleanupAfterCommit "https://t.supabase.co/storage/v1/object/public/media/team/o.jpg"
      (teamPut ⟨true, "https://t.supabase.co/storage/v1/object/public/media/team/o.jpg",
        false, some ⟨"t.jpg"⟩, ""⟩ [some "N"] true).trace = true ∧
    cleanupAfterCommit
      "https://abc.supabase.co/storage/v1/object/public/media/courses/old.jpg"
      (coursesPut ⟨true,
        "https://abc.supabase.co/storage/v1/object/public/media/courses/old.jpg",
        some ⟨"n.jpg"⟩⟩ [some "N"] true).trace = false ∧
    cleanupAfterCommit
      "https://abc.supabase.co/storage/v1/object/public/media/services/icon.jpg"
      (servicesPut ⟨true,
        "https://abc.supabase.co/storage/v1/object/public/media/services/icon.jpg",
        "", some ⟨"n.jpg"⟩⟩ [some "NI"] true).trace = false := by
  have h := c2_old_image_delete_ordering
    ⟨true, "OLD", ["A"], some ⟨"m.jpg"⟩, [], []⟩
    ⟨true, "https://t.supabase.co/storage/v1/object/public/media/team/o.jpg",
      false, some ⟨"t.jpg"⟩, ""⟩
    ⟨true, "https://abc.supabase.co/storage/v1/object/public/media/courses/old.jpg",
      some ⟨"n.jpg"⟩⟩
    ⟨true, "https://abc.supabase.co/storage/v1/object/public/media/services/icon.jpg",
      "", some ⟨"n.jpg"⟩⟩
    [some "N"] [] true ⟨"n.jpg"⟩ "NI"
    (by intro o ho; simp at ho; subst ho; decide)
    (by intro o ho; simp at ho; subst ho; decide)
    rfl rfl (by decide) (by decide) rfl rfl (by decide) (by decide) (by decide)
    (by decide) (by decide)
  exact ⟨by decide, h.1, h.2.1, h.2.2.1, h.2.2.2⟩

theorem rollback_no_commit (L : List String) (e : Ev)
    (he : e ∈ rollbackUploads L) : commitEv e = false ∧ isDbWrite e = false := by
  unfold rollbackUploads at he
  by_cases hL : L.isEmpty
  · simp [hL] at he
  · simp [hL] at he
    subst he
    exact ⟨rfl, rfl⟩

theorem invHolds_no_commit (tr : List Ev) (w : World) (h0 : w.dbRefs = [])
    (h : ∀ e ∈ tr, commitEv e = false) : invHolds w tr = true := by
  unfold invHolds
  rw [invSteps_no_commit tr w h0 h,
    okW_of_dbRefs_nil _ (runW_dbRefs_nil tr w h0 h)]
  rfl

theorem okW_of_upReq (w : World) (h : ∀ u ∈ w.dbRefs, u ∈ w.upReq) :
    okW w = true := by
  rw [okW, List.all_eq_true]
  intro u hu
  have := h u hu
  simp [this]

theorem invHolds_commit_last (X : List Ev) (w : World) (refs : List String)
    (h0 : w.dbRefs = [])
    (hnc : ∀ e ∈ X, commitEv e = false)
    (hrefs : ∀ u ∈ refs, Ev.upload u ∈ X) :
    invHolds w (X ++ [Ev.dbCreate refs true]) = true := by
  unfold invHolds
  rw [invSteps_append, runW_append]
  have h1 : invSteps w X = true := invSteps_no_commit X w h0 hnc
  have h2 : (runW w X).dbRefs = [] := runW_dbRefs_nil X w h0 hnc
  have h3 : invSteps (runW w X) [Ev.dbCreate refs true] = true := by
    simp [invSteps, okW_of_dbRefs_nil _ h2]
  have h4 : okW (runW (runW w X) [Ev.dbCreate refs true]) = true := by
    have hstep : runW (runW w X) [Ev.dbCreate refs true]
        = stepW (runW w X) (Ev.dbCreate refs true) := rfl
    rw [hstep]
    refine okW_of_upReq _ ?ref
    intro u hu
    simp only [stepW, if_true] at hu ⊢
    exact runW_upReq_of_upload X w u (hrefs u hu)
  rw [h1, h3, h4]
  rfl

theorem projectsCreateRest_integrity (s0 : List String) (req : PostProjectsReq)
    (mainUrl : Option String) (outs : List (Option String)) (saveOk : Bool) :
    invHolds ⟨s0, [], []⟩ (projectsCreateRest req mainUrl outs saveOk).trace
      = true := by
  cases mainUrl with
  | some mu =>
    simp only [projectsCreateRest]
    by_cases hok : (galleryUploads req.galleryFiles outs [mu] []).ok
    · simp only [hok, if_true]
      cases saveOk with
      | true =>
        simp only [if_true]
        refine invHolds_commit_last _ _ _ rfl ?_ ?_
        · intro e he
          rcases List.mem_append.mp he with he | he
          · simp at he; subst he; rfl
          · exact (galleryUploads_no_db req.galleryFiles outs [mu] [] e he).2
        · intro u hu
          rcases List.mem_append.mp hu with hu | hu
          · simp at hu
            refine List.mem_append_left _ ?_
            rw [hu]
            simp
          · rcases galleryUploads_imgs_mem req.galleryFiles outs [mu] [] u hu with h | h
            · simp at h
            · exact List.mem_append_right _ h
      | false =>
        simp only [Bool.false_eq_true, if_false]
        refine invHolds_no_commit _ _ rfl ?_
        intro e he
        rcases List.mem_append.mp he with he | he
        · rcases List.mem_append.mp he with he | he
          · rcases List.mem_append.mp he with he | he
            · simp at he; subst he; rfl
            · exact (galleryUploads_no_db req.galleryFiles outs [mu] [] e he).2
          · simp at he; subst he; rfl
        · exact (rollback_no_commit _ e he).1
    · simp only [hok, Bool.false_eq_true, if_false]
      refine invHolds_no_commit _ _ rfl ?_
      intro e he
      rcases List.mem_append.mp he with he | he
      · rcases List.mem_append.mp he with he | he
        · simp at he; subst he; rfl
        · exact (galleryUploads_no_db req.galleryFiles outs [mu] [] e he).2
      · exact (rollback_no_commit _ e he).1
  | none =>
    simp only [projectsCreateRest]
    by_cases hok : (galleryUploads req.galleryFiles outs [] []).ok
    · simp only [hok, if_true]
      cases saveOk with
      | true =>
        simp only [if_true]
        refine invHolds_commit_last _ _ _ rfl ?_ ?_
        · intro e he
          rcases List.mem_append.mp he with he | he
          · simp at he
          · exact (galleryUploads_no_db req.galleryFiles outs [] [] e he).2
        · intro u hu
          rcases List.mem_append.mp hu with hu | hu
          · simp at hu
          · rcases galleryUploads_imgs_mem req.galleryFiles outs [] [] u hu with h | h
            · simp at h
            · exact List.mem_append_right _ h
      | false =>
        simp only [Bool.false_eq_true, if_false]
        refine invHolds_no_commit _ _ rfl ?_
        intro e he
        rcases List.mem_append.mp he with he | he
        · rcases List.mem_append.mp he with he | he
          · rcases List.mem_append.mp he with he | he
            · simp at he
            · exact (galleryUploads_no_db req.galleryFiles outs [] [] e he).2
          · simp at he; subst he; rfl
        · exact (rollback_no_commit _ e he).1
    · simp only [hok, Bool.false_eq_true, if_false]
      refine invHolds_no_commit _ _ rfl ?_
      intro e he
      rcases List.mem_append.mp he with he | he
      · rcases List.mem_append.mp he with he | he
        · simp at he
        · exact (galleryUploads_no_db req.galleryFiles outs [] [] e he).2
      · exact (rollback_no_commit _ e he).1

/-- C3 counterexample: run PUT `/api/courses/:id` replacing the image when
the database update then fails, starting from a world where the store holds
exactly the course's persisted image.  The invariant is violated mid-request
(the old image is removed from the store while the database still references
it) and is still violated in the final state after the request completes:
the database permanently references an object that no longer exists, and the
transient-window exception cannot apply since the dangling URL was not
uploaded during the request. -/
theorem c3_coursesPut_integrity_violation :
    invHolds
      ⟨["https://abc.supabase.co/storage/v1/object/public/media/courses/old.jpg"],
       ["https://abc.supabase.co/storage/v1/object/public/media/courses/old.jpg"], []⟩
      (coursesPut ⟨true,
        "https://abc.supabase.co/storage/v1/object/public/media/courses/old.jpg",
        some ⟨"new.jpg"⟩⟩ [some "NEW"] false).trace = false ∧
    okW (runW
      ⟨["https://abc.supabase.co/storage/v1/object/public/media/courses/old.jpg"],
       ["https://abc.supabase.co/storage/v1/object/public/media/courses/old.jpg"], []⟩
      (coursesPut ⟨true,
        "https://abc.supabase.co/storage/v1/object/public/media/courses/old.jpg",
        some ⟨"new.jpg"⟩⟩ [some "NEW"] false).trace) = false := by
  refine ⟨by decide, by decide⟩

/-- C3 amended: the referential-integrity invariant — every URL the database
persists exists in the store, up to the transient window for URLs uploaded
during the current request — holds at every point of every POST
`/api/projects` request (for any initial store, any upload outcomes, and
either save outcome); it does NOT hold for the courses/services update
paths, which delete the old image from the store before the database write
(see the counterexample). -/
theorem c3_projectsCreate_integrity (s0 : List String) (req : PostProjectsReq)
    (outs : List (Option String)) (saveOk : Bool) :
    invHolds ⟨s0, [], []⟩ (projectsCreate req outs saveOk).trace = true := by
  by_cases hk : req.hasFieldKeys
  · simp [projectsCreate, hk, invHolds, invSteps, runW, okW]
  · cases hm : req.mainImageFile with
    | some f =>
      cases outs with
      | nil =>
        simp [projectsCreate, hk, hm, takeOut, invHolds, invSteps, runW, stepW, okW]
      | cons o rest =>
        cases o with
        | none =>
          simp [projectsCreate, hk, hm, takeOut, invHolds, invSteps, runW, stepW, okW]
        | some mu =>
          have := projectsCreateRest_integrity s0 req (some mu) rest saveOk
          simpa [projectsCreate, hk, hm, takeOut] using this
    | none =>
      have := projectsCreateRest_integrity s0 req none outs saveOk
      simpa [projectsCreate, hk, hm] using this
